import Mathlib

/-!
Verification of the entity-reconciliation and redaction-geometry pipeline of the
Doct-Redaction repository (src/app/api/redact-pdf/route.ts), as a shallow
embedding in Lean 4.

Conventions of the embedding:
* JavaScript numbers used as character offsets and lengths are modelled as `Int`
  (the program only ever adds and compares them).
* JavaScript numbers used as page geometry (polygon coordinates, padding,
  similarity scores, confidence values) are modelled as `ℚ`; the program's
  arithmetic on them is +, -, *, /, min, max and comparisons only.
* Strings are modelled as `String` / `List Char`; the handful of regular
  expressions the code uses are translated into explicit character-list
  functions next to their use sites.
* External HTTP calls are modelled by explicit oracles (functions passed in).
-/

set_option maxRecDepth 100000

/- Batteries marks the rational operations irreducible; the embedding evaluates
concrete geometry with `decide`, which needs them reducible again. -/
attribute [local semireducible] Rat.add Rat.sub Rat.mul Rat.inv

namespace Redact

/-- PII entity as produced by Azure PII detection or by the custom pattern
detectors (interface `PIIEntity` in route.ts). -/
structure PIIEntity where
  text : String
  category : String
  offset : Int
  length : Int
  confidenceScore : ℚ
deriving DecidableEq, Repr

/-- Half-open interval overlap test used throughout route.ts:
`start < otherEnd && end > otherStart` (mergeEntities, lines 827–832). -/
def hasOverlapB (c a : PIIEntity) : Bool :=
  decide (c.offset < a.offset + a.length) && decide (c.offset + c.length > a.offset)

/-- The (offset, length, category) triple by which `mergeEntities` locates an
entity to splice out of the merged array (`merged.findIndex`, lines 839–843). -/
structure EKey where
  offset : Int
  length : Int
  category : String
deriving DecidableEq, Repr

/-- Does an entity match a removal key (the `findIndex` predicate)? -/
def matchKeyB (k : EKey) (e : PIIEntity) : Bool :=
  decide (e.offset = k.offset) && decide (e.length = k.length) && decide (e.category = k.category)

/-- `merged.splice(indexToRemove, 1)` guarded by `indexToRemove !== -1`:
remove the first entity matching the key, or leave the list unchanged. -/
def removeFirstMatch (k : EKey) : List PIIEntity → List PIIEntity
  | [] => []
  | e :: rest => if matchKeyB k e then rest else e :: removeFirstMatch k rest

/-- The body of `azureEntities.some(azureEntity => ...)` inside `mergeEntities`
(route.ts lines 827–878): walk the Azure entity list in order; a priority rule
splices the matching Azure entity out of `merged` and continues; any other
overlap short-circuits with `true`; reaching the end yields `false`.
Returns the updated `merged` array and the value of `overlaps`. -/
def processCustom (c : PIIEntity) (merged : List PIIEntity) :
    List PIIEntity → List PIIEntity × Bool
  | [] => (merged, false)
  | a :: rest =>
    if hasOverlapB c a && decide (c.category = "Occupation")
        && decide (a.category = "Organization") then
      processCustom c (removeFirstMatch ⟨a.offset, a.length, "Organization"⟩ merged) rest
    else if hasOverlapB c a && decide (c.category = "DEBankCode")
        && decide (a.category = "PhoneNumber") then
      processCustom c (removeFirstMatch ⟨a.offset, a.length, "PhoneNumber"⟩ merged) rest
    else if hasOverlapB c a && decide (c.category = "DEBankCode")
        && decide (a.category = "InternationalBankingAccountNumber") then
      processCustom c
        (removeFirstMatch ⟨a.offset, a.length, "InternationalBankingAccountNumber"⟩ merged) rest
    else if hasOverlapB c a then (merged, true)
    else processCustom c merged rest

/-- One iteration of `customEntities.forEach` in `mergeEntities`
(route.ts lines 824–886): run the overlap scan against the fixed Azure list,
then push the custom entity onto `merged` when `overlaps` is false. -/
def mergeStep (azure : List PIIEntity) (merged : List PIIEntity) (c : PIIEntity) :
    List PIIEntity :=
  let r := processCustom c merged azure
  if r.2 then r.1 else r.1 ++ [c]

/-- Ordering used by the final `merged.sort((a, b) => a.offset - b.offset)`
(route.ts line 889); JavaScript's sort is stable, modelled by a stable
insertion sort on this relation. -/
def entLE (a b : PIIEntity) : Prop := a.offset ≤ b.offset

instance : DecidableRel entLE := fun a b => inferInstanceAs (Decidable (a.offset ≤ b.offset))

instance : IsTotal PIIEntity entLE := ⟨fun a b => Int.le_total a.offset b.offset⟩

instance : IsTrans PIIEntity entLE := ⟨fun _ _ _ hab hbc => le_trans hab hbc⟩

/-- `mergeEntities(azureEntities, customEntities)` of route.ts (lines 820–893):
start from the Azure entities verbatim, process each custom entity against the
(fixed) Azure list with splice-and-continue priority rules, then sort the
result ascending by offset (stably). -/
def mergeEntities (azureEntities customEntities : List PIIEntity) : List PIIEntity :=
  List.insertionSort entLE (customEntities.foldl (mergeStep azureEntities) azureEntities)

/-! ### Analysis layer for `mergeEntities`

`scanAzure` recomputes, purely from the custom entity and the (immutable) Azure
list, the sequence of splice keys that `processCustom` applies and whether the
`some` callback short-circuits; the closed form below then expresses the whole
merge as removals plus appended accepted customs. -/

/-- Pure recomputation of `processCustom`: the removal keys issued (in order)
and the final value of `overlaps`. -/
def scanAzure (c : PIIEntity) : List PIIEntity → List EKey × Bool
  | [] => ([], false)
  | a :: rest =>
    if hasOverlapB c a && decide (c.category = "Occupation")
        && decide (a.category = "Organization") then
      ((⟨a.offset, a.length, "Organization"⟩ : EKey) :: (scanAzure c rest).1,
        (scanAzure c rest).2)
    else if hasOverlapB c a && decide (c.category = "DEBankCode")
        && decide (a.category = "PhoneNumber") then
      ((⟨a.offset, a.length, "PhoneNumber"⟩ : EKey) :: (scanAzure c rest).1,
        (scanAzure c rest).2)
    else if hasOverlapB c a && decide (c.category = "DEBankCode")
        && decide (a.category = "InternationalBankingAccountNumber") then
      ((⟨a.offset, a.length, "InternationalBankingAccountNumber"⟩ : EKey) :: (scanAzure c rest).1,
        (scanAzure c rest).2)
    else if hasOverlapB c a then ([], true)
    else scanAzure c rest

/-- Apply a sequence of splice keys from left to right. -/
def applyRemovals (ks : List EKey) (m : List PIIEntity) : List PIIEntity :=
  ks.foldl (fun m k => removeFirstMatch k m) m

/-- The removal keys a custom entity issues against the Azure list. -/
def remKeys (az : List PIIEntity) (c : PIIEntity) : List EKey := (scanAzure c az).1

/-- Is the custom entity appended to `merged` (i.e. `overlaps` ends up false)? -/
def acceptedE (az : List PIIEntity) (c : PIIEntity) : Bool := !(scanAzure c az).2

/-- One of the three priority-rule category pairs fires for (custom, azure). -/
def ruleFires (c a : PIIEntity) : Prop :=
  (c.category = "Occupation" ∧ a.category = "Organization")
  ∨ (c.category = "DEBankCode" ∧ a.category = "PhoneNumber")
  ∨ (c.category = "DEBankCode" ∧ a.category = "InternationalBankingAccountNumber")

/-! ### Concrete entities for examples
Confidence values are whole numbers so that `decide` can evaluate in the
kernel; no code path of the program reads the confidence score. -/

/-- An Azure `Person` entity on span [0, 5). -/
def cxPerson : PIIEntity := ⟨"Max Huber", "Person", 0, 5, 1⟩

/-- An Azure `Organization` entity on span [0, 5). -/
def cxOrg : PIIEntity := ⟨"Acme", "Organization", 0, 5, 1⟩

/-- A pattern `Occupation` entity on span [0, 5). -/
def cxOcc : PIIEntity := ⟨"Nurse", "Occupation", 0, 5, 1⟩

/-- A pattern `DateOfBirth` entity on span [0, 5). -/
def cxDob1 : PIIEntity := ⟨"01.02.1990", "DateOfBirth", 0, 5, 1⟩

/-- A pattern `DateOfBirth` entity on span [2, 7), overlapping `cxDob1`. -/
def cxDob2 : PIIEntity := ⟨"01.02.90", "DateOfBirth", 2, 5, 1⟩

/-- A pattern `DateOfBirth` entity on span [0, 10). -/
def cxDobA : PIIEntity := ⟨"01.02.1990", "DateOfBirth", 0, 10, 1⟩

/-- A distinct pattern `DateOfBirth` entity with the same offset as `cxDobA`. -/
def cxDobB : PIIEntity := ⟨"1.2.1990", "DateOfBirth", 0, 8, 1⟩

/-- An Azure `Organization` entity on span [10, 16). -/
def wOrg : PIIEntity := ⟨"Pflege GmbH", "Organization", 10, 6, 1⟩

/-- A pattern `Occupation` entity on span [10, 24), overlapping `wOrg`. -/
def wOcc : PIIEntity := ⟨"Krankenpfleger", "Occupation", 10, 14, 1⟩

/-! ### PII detection chunking (`detectPII`, route.ts lines 348–528) -/

/-- Azure PII chunk size (route.ts line 357). -/
def CHUNK_SIZE : Nat := 5000

/-- Start offsets of the chunk requests issued by the loop
`for (offset = 0; offset < text.length; offset += CHUNK_SIZE)`
(route.ts line 474). -/
def chunkOffsets (textLen : Nat) : List Nat :=
  (List.range ((textLen + CHUNK_SIZE - 1) / CHUNK_SIZE)).map (· * CHUNK_SIZE)

/-- Entities contributed by the chunk starting at `off`: on success the
chunk's entities with offsets shifted by the chunk start (route.ts lines
507–517); on failure nothing — the catch block only logs and continues
(lines 519–522). -/
def chunkContrib (fetch : Nat → Except String (List PIIEntity)) (off : Nat) :
    List PIIEntity :=
  match fetch off with
  | Except.ok es => es.map (fun e => { e with offset := e.offset + (off : Int) })
  | Except.error _ => []

/-- `detectPII` with the per-chunk HTTP call abstracted as the oracle `fetch`,
indexed by chunk start offset.  A document of at most `CHUNK_SIZE` characters
is sent as a single request whose failure is rethrown as an error (route.ts
lines 429–469); a longer document is split into chunks and a failed chunk is
skipped (lines 471–527). -/
def detectPII (fetch : Nat → Except String (List PIIEntity)) (textLen : Nat) :
    Except String (List PIIEntity) :=
  if textLen ≤ CHUNK_SIZE then
    match fetch 0 with
    | Except.ok es => Except.ok es
    | Except.error msg => Except.error ("Azure PII Detection failed: " ++ msg)
  else
    Except.ok ((chunkOffsets textLen).flatMap (chunkContrib fetch))

/-- An oracle whose every chunk request fails. -/
def cxFetchFail : Nat → Except String (List PIIEntity) := fun _ => Except.error "boom"

/-- A sample detected entity. -/
def wEnt : PIIEntity := ⟨"Max", "Person", 3, 3, 1⟩

/-- An oracle whose every chunk request succeeds with one entity. -/
def wFetch : Nat → Except String (List PIIEntity) := fun _ => Except.ok [wEnt]

/-- Like `wFetch` but the chunk at offset 5000 fails. -/
def wFetchDrop : Nat → Except String (List PIIEntity) := fun off =>
  if off = 5000 then Except.error "boom" else Except.ok [wEnt]

/-! ### Character-level utilities and `normalizeText`
(route.ts lines 1392–1403; identical inline copies at lines 1754–1774) -/

/-- JavaScript whitespace (the members of the regex class `\s` the pipeline
can meet). -/
def isWsJS (c : Char) : Bool :=
  c = ' ' || c = '\t' || c = '\n' || c = '\r' || c = '\x0b' || c = '\x0c'

/-- `toLowerCase()` restricted to ASCII letters and the German capitals the
whitelists contain (other characters are untouched, as in JavaScript). -/
def jsLowerChar (c : Char) : Char :=
  if c = 'Ä' then 'ä' else if c = 'Ö' then 'ö' else if c = 'Ü' then 'ü' else c.toLower

/-- The four sequential folds `ß→ss, ä→ae, ö→oe, ü→ue`; their outputs contain
none of the folded letters, so one character-wise expansion is equivalent. -/
def germanFold (c : Char) : List Char :=
  if c = 'ß' then ['s', 's'] else if c = 'ä' then ['a', 'e']
  else if c = 'ö' then ['o', 'e'] else if c = 'ü' then ['u', 'e'] else [c]

/-- `replace(/str\./gi, 'strasse')` on already-lowercased text: left-to-right,
non-overlapping. -/
def replaceStrDot : List Char → List Char
  | 's' :: 't' :: 'r' :: '.' :: rest =>
    's' :: 't' :: 'r' :: 'a' :: 's' :: 's' :: 'e' :: replaceStrDot rest
  | c :: rest => c :: replaceStrDot rest
  | [] => []

/-- JavaScript `\w` (word character): letters, digits, underscore. -/
def isWordChar (c : Char) : Bool :=
  ('a' ≤ c && c ≤ 'z') || ('A' ≤ c && c ≤ 'Z') || ('0' ≤ c && c ≤ '9') || c = '_'

/-- `replace(/\bstr\b/gi, 'strasse')` on lowercased text; the boolean argument
is whether the previous character of the original string is a word
character. -/
def replaceStrWord : Bool → List Char → List Char
  | _, [] => []
  | prevW, 's' :: 't' :: 'r' :: rest =>
    if !prevW && (match rest with | [] => true | d :: _ => !isWordChar d) then
      's' :: 't' :: 'r' :: 'a' :: 's' :: 's' :: 'e' :: replaceStrWord true rest
    else 's' :: replaceStrWord true ('t' :: 'r' :: rest)
  | _, c :: rest => c :: replaceStrWord (isWordChar c) rest

/-- `replace(/[\r\n,\-\.]/g, ' ')`. -/
def punctToSpace (c : Char) : Char :=
  if c = '\r' || c = '\n' || c = ',' || c = '-' || c = '.' then ' ' else c

/-- `replace(/\s+/g, ' ')`: collapse whitespace runs to single spaces; the
boolean argument is whether the previous character was whitespace. -/
def collapseWSAux : Bool → List Char → List Char
  | _, [] => []
  | prevWs, c :: rest =>
    if isWsJS c then
      (if prevWs then collapseWSAux true rest else ' ' :: collapseWSAux true rest)
    else c :: collapseWSAux false rest

/-- JavaScript `trim()`. -/
def trimJS (l : List Char) : List Char :=
  ((l.dropWhile isWsJS).reverse.dropWhile isWsJS).reverse

/-- `normalizeText` (route.ts lines 1392–1403): lowercase, fold German
letters, expand `str.` and the standalone word `str` to `strasse`, map
`\r \n , - .` to spaces, collapse whitespace runs, trim. -/
def normalizeText (s : String) : String :=
  String.mk (trimJS (collapseWSAux false (List.map punctToSpace
    (replaceStrWord false (replaceStrDot ((s.data.map jsLowerChar).flatMap germanFold))))))

/-! ### Document Intelligence data model and `convertEntitiesToRedactionCoordinates`
(route.ts lines 26–62 and 895–973) -/

/-- A span into the canonical full-document text. -/
structure SpanT where
  offset : Int
  length : Int
deriving DecidableEq, Repr

/-- OCR word (interface `DocIntelWord`): content, 8-number polygon
`[x1, y1, x2, y2, x3, y3, x4, y4]`, span, confidence. -/
structure DocIntelWord where
  content : String
  polygon : List ℚ
  span : SpanT
  confidence : ℚ
deriving DecidableEq, Repr

/-- OCR page (interface `DocIntelPage`); `unit` is `"pixel"` or `"inch"`. -/
structure DocIntelPage where
  pageNumber : Int
  angle : ℚ
  width : ℚ
  height : ℚ
  unit : String
  words : List DocIntelWord
deriving DecidableEq, Repr

/-- Style note from the OCR service (interface `DocIntelStyle`);
`isHandwritten` is an optional field in the source. -/
structure DocIntelStyle where
  isHandwritten : Option Bool
  spans : List SpanT
  confidence : ℚ
deriving DecidableEq, Repr

/-- `analyzeResult` of the OCR response: full text, pages, optional styles. -/
structure AnalyzeResult where
  content : String
  pages : List DocIntelPage
  styles : Option (List DocIntelStyle)
deriving DecidableEq, Repr

/-- Redaction coordinate handed to the renderer (interface
`RedactionCoordinate`); `text` and `category` are optional in the source. -/
structure RedactionCoordinate where
  pageIndex : Nat
  x : ℚ
  y : ℚ
  width : ℚ
  height : ℚ
  text : Option String
  category : Option String
deriving DecidableEq, Repr

/-- `word.polygon[i]`; the code only reads indices 0–7 of 8-point polygons, a
missing index is modelled as 0. -/
def polyAt (w : DocIntelWord) (i : Nat) : ℚ := w.polygon.getD i 0

/-- `PADDING_INCH = 0.02` (route.ts line 938). -/
def PADDING_INCH : ℚ := 1/50

/-- `Math.min` over the four polygon x (or y) coordinates. -/
def min4 (a b c d : ℚ) : ℚ := min (min (min a b) c) d

/-- `Math.max` over the four polygon x (or y) coordinates. -/
def max4 (a b c d : ℚ) : ℚ := max (max (max a b) c) d

/-- Ordering of the `allWords.sort((a, b) => a.word.span.offset - b.word.span.offset)`
call (route.ts line 910), again a stable sort. -/
def wordLE (a b : DocIntelWord × Nat) : Prop := a.1.span.offset ≤ b.1.span.offset

instance : DecidableRel wordLE :=
  fun a b => inferInstanceAs (Decidable (a.1.span.offset ≤ b.1.span.offset))

instance : IsTotal (DocIntelWord × Nat) wordLE :=
  ⟨fun a b => Int.le_total a.1.span.offset b.1.span.offset⟩

instance : IsTrans (DocIntelWord × Nat) wordLE := ⟨fun _ _ _ hab hbc => le_trans hab hbc⟩

/-- All words of all pages with their page indices, sorted by span offset
(route.ts lines 902–910). -/
def allWordsSorted (pages : List DocIntelPage) : List (DocIntelWord × Nat) :=
  List.insertionSort wordLE
    (pages.enum.flatMap (fun pi => pi.2.words.map (fun w => (w, pi.1))))

/-- Placeholder page for the (unreachable) out-of-range page lookup. -/
def defaultPage : DocIntelPage := ⟨0, 0, 0, 0, "", []⟩

/-- The redaction region emitted for one selected word of one entity
(route.ts lines 923–968): axis-aligned bounding box of the polygon, padding
0.02 subtracted on the left/top clamped at zero and added on the
right/bottom, then every component scaled by 72 exactly when the owning
page's unit is `"inch"`. -/
def convRegion (pages : List DocIntelPage) (entity : PIIEntity)
    (item : DocIntelWord × Nat) : RedactionCoordinate :=
  let azurePage := pages.getD item.2 defaultPage
  let minX := max 0 (min4 (polyAt item.1 0) (polyAt item.1 2) (polyAt item.1 4)
    (polyAt item.1 6) - PADDING_INCH)
  let minY := max 0 (min4 (polyAt item.1 1) (polyAt item.1 3) (polyAt item.1 5)
    (polyAt item.1 7) - PADDING_INCH)
  let maxX := max4 (polyAt item.1 0) (polyAt item.1 2) (polyAt item.1 4)
    (polyAt item.1 6) + PADDING_INCH
  let maxY := max4 (polyAt item.1 1) (polyAt item.1 3) (polyAt item.1 5)
    (polyAt item.1 7) + PADDING_INCH
  let f : ℚ := if azurePage.unit = "inch" then 72 else 1
  ⟨item.2, f * minX, f * minY, f * (maxX - minX), f * (maxY - minY),
    some entity.text, some entity.category⟩

/-- `convertEntitiesToRedactionCoordinates` (route.ts lines 895–973): for each
entity, one region per word whose span overlaps the entity span (half-open
interval test), in sorted word order. -/
def convertEntitiesToRedactionCoordinates (entities : List PIIEntity)
    (pages : List DocIntelPage) : List RedactionCoordinate :=
  entities.flatMap (fun entity =>
    ((allWordsSorted pages).filter (fun item =>
      decide (item.1.span.offset < entity.offset + entity.length)
        && decide (item.1.span.offset + item.1.span.length > entity.offset))).map
      (convRegion pages entity))

/-- A word whose polygon touches the page origin, on an inch page. -/
def cxWord6 : DocIntelWord := ⟨"Regio", [0, 0, 1, 0, 1, 1, 0, 1], ⟨0, 5⟩, 1⟩

/-- An inch-unit page containing only `cxWord6`. -/
def cxPage6 : DocIntelPage := ⟨1, 0, 8, 11, "inch", [cxWord6]⟩

/-- An entity covering `cxWord6`. -/
def cxEnt6 : PIIEntity := ⟨"Regio", "Person", 0, 5, 1⟩

/-- The unit-square word at (1,1)–(2,2) from the claim's example. -/
def wWord6 : DocIntelWord := ⟨"Max", [1, 1, 2, 1, 2, 2, 1, 2], ⟨0, 5⟩, 1⟩

/-- An inch-unit page containing only `wWord6`. -/
def wPage6 : DocIntelPage := ⟨1, 0, 8, 11, "inch", [wWord6]⟩

/-- An entity covering `wWord6`. -/
def wEnt6 : PIIEntity := ⟨"Max Muster", "Person", 0, 5, 1⟩

/-! ### Token utilities shared by the phone detector and the entity filter -/

/-- `replace(/[\n\r]/g, ' ')`. -/
def nl2sp (c : Char) : Char := if c = '\n' || c = '\r' then ' ' else c

/-- Maximal runs of characters satisfying `p` (the accumulator holds the
current run reversed). -/
def splitRunsAux (p : Char → Bool) (acc : List Char) : List Char → List (List Char)
  | [] => if acc.isEmpty then [] else [acc.reverse]
  | c :: rest =>
    if p c then splitRunsAux p (c :: acc) rest
    else if acc.isEmpty then splitRunsAux p [] rest
    else acc.reverse :: splitRunsAux p [] rest

/-- Maximal runs of characters satisfying `p`. -/
def splitRuns (p : Char → Bool) (l : List Char) : List (List Char) :=
  splitRunsAux p [] l

/-- `split(/\s+/).filter(s => s.length > 0)`: the maximal non-whitespace
runs. -/
def wsTokens (l : List Char) : List (List Char) := splitRuns (fun c => !isWsJS c) l

/-- The integer denoted by a digit string. -/
def digitsVal (t : List Char) : Int :=
  t.foldl (fun acc c => acc * 10 + ((c.toNat : Int) - 48)) 0

/-- JavaScript `parseInt(t, 10)`: skip leading whitespace, optional sign, then
the maximal digit prefix; `NaN` (here `none`) when no digit follows. -/
def jsParseInt (t : List Char) : Option Int :=
  match t.dropWhile isWsJS with
  | '+' :: rest =>
    if (rest.takeWhile Char.isDigit).isEmpty then none
    else some (digitsVal (rest.takeWhile Char.isDigit))
  | '-' :: rest =>
    if (rest.takeWhile Char.isDigit).isEmpty then none
    else some (-(digitsVal (rest.takeWhile Char.isDigit)))
  | t1 =>
    if (t1.takeWhile Char.isDigit).isEmpty then none
    else some (digitsVal (t1.takeWhile Char.isDigit))

/-- `nums.every((n, i) => i === 0 || n > nums[i-1])`: strictly increasing. -/
def chainIncr : List Int → Bool
  | a :: b :: t => decide (a < b) && chainIncr (b :: t)
  | _ => true

/-- `nums.every((n, i) => i === 0 || n - nums[i-1] === d)`. -/
def chainDiff (d : Int) : List Int → Bool
  | a :: b :: t => decide (b - a = d) && chainDiff d (b :: t)
  | _ => true

/-- `nums[1] - nums[0]` when it exists, else 0 (route.ts line 1737). -/
def firstDiffOf : List Int → Int
  | a :: b :: _ => b - a
  | _ => 0

/-- Does the first list occur at the start of the second? -/
def leadsWith : List Char → List Char → Bool
  | [], _ => true
  | _ :: _, [] => false
  | a :: as, b :: bs => a == b && leadsWith as bs

/-- JavaScript `includes`: does `needle` occur as a contiguous substring? -/
def hasSub (needle : List Char) : List Char → Bool
  | [] => needle.isEmpty
  | c :: cs => leadsWith needle (c :: cs) || hasSub needle cs

/-! ### Whitelists and the entity filter
(route.ts lines 92–210, 1390–1479 and the filter closure at lines
1691–1877) -/

/-- `WHITELISTED_ADDRESSES` (route.ts lines 92–120). -/
def WHITELISTED_ADDRESSES : List String := [
  "Deutsche Grundstücksauktionen AG, Kurfürstendamm 65, 10707 Berlin",
  "Sächsische Grundstücksauktionen AG, Hohe Straße 12, 01069 Dresden",
  "WESTDEUTSCHE GRUNDSTÜCKSAUKTIONEN AG, Apostelnstraße 9, 50667 Köln",
  "Norddeutsche Grundstücksauktionen AG, Ernst-Barlach-Strasse 4, 18055 Rostock",
  "PLETTNER & BRECHT IMMOBILIEN GMBH, Kirschenallee 20, 14050 Berlin",
  "Kurfürstendamm 65, 10707 Berlin",
  "Kurfürstendamm 65",
  "10707 Berlin",
  "Hohe Straße 12, 01069 Dresden",
  "Hohe Straße 12",
  "01069 Dresden",
  "Apostelnstraße 9, 50667 Köln",
  "Apostelnstraße 9",
  "50667 Köln",
  "Ernst-Barlach-Strasse 4, 18055 Rostock",
  "Ernst-Barlach-Strasse 4",
  "18055 Rostock",
  "Kirschenallee 20, 14050 Berlin",
  "Kirschenallee 20",
  "14050 Berlin"]

/-- `WHITELISTED_ORGANIZATIONS` (route.ts lines 124–130). -/
def WHITELISTED_ORGANIZATIONS : List String := [
  "Deutsche Grundstücksauktionen AG",
  "Sächsische Grundstücksauktionen AG",
  "WESTDEUTSCHE GRUNDSTÜCKSAUKTIONEN AG",
  "Norddeutsche Grundstücksauktionen AG",
  "PLETTNER & BRECHT IMMOBILIEN GMBH"]

/-- `WHITELISTED_ROLE_WORDS` (route.ts lines 134–210). -/
def WHITELISTED_ROLE_WORDS : List String := [
  "Anwesenden", "Ausbauberechtigten", "Ausbauberechtigte", "Beauftragte",
  "Bevollmächtigten", "Erschienenen", "Erbengemeinschaft", "Fachmann",
  "teilende Eigentümer", "Eigentümer", "Eigentümern", "Notarin", "Notar",
  "Notaramtes", "Nutzungsberechtigten", "Sondernutzungsberechtigte",
  "Geschäftsführer", "Inhaber", "Miterben", "Mieter", "Mieterin",
  "Beteiligten", "Miteigentümer", "Teileigentümer", "Wohnungseigentümer",
  "Wohnungseigentümers", "Verwalters", "Verwalter", "Verwalterin",
  "Vermieter", "Vermieterin", "Versammlungsleiter", "Dritter", "Zahlender",
  "Vermieters", "Mieters", "Dritte", "Bewohner", "Gebäude", "Pächter",
  "Pächters", "Verpächter", "Verpächters", "Alleinpächter",
  "Nachfolgepächter", "Grundstück", "Betriebsnachfolger",
  "Landwirtschaftskammer", "Parteien", "Pachtvertrag", "Behörde",
  "Sachverständigen", "Vergleichswerte Endenergie", "Vergleichswerte",
  "Endenergie", "Endenergiebedarf", "Primärenergiebedarf",
  "Energieeffizienzklasse", "Energieausweis", "Energiebedarf",
  "Energiekennwert", "EEWärmeG", "EnEV", "Wärmeschutz", "Anforderungswert",
  "Ersatzmaßnahmen", "Erläuterungen", "Berechnungsverfahren",
  "Pflichtangabe", "Immobilienanzeigen", "Angaben zum", "Dritten",
  "behindertengerechte", "Erfüllungsgehilfen", "Beauftragten"]

/-- The normalization pipeline of `normalizeText` on character lists. -/
def normL (l : List Char) : List Char :=
  trimJS (collapseWSAux false (List.map punctToSpace
    (replaceStrWord false (replaceStrDot ((l.map jsLowerChar).flatMap germanFold)))))

/-- JavaScript `split(' ')` (single-space separator, empty pieces kept). -/
def splitCharAux (acc : List Char) : List Char → List (List Char)
  | [] => [acc.reverse]
  | c :: rest =>
    if c = ' ' then acc.reverse :: splitCharAux [] rest else splitCharAux (c :: acc) rest

/-- `normalizedEntity.split(' ')`. -/
def splitOnSpace (l : List Char) : List (List Char) := splitCharAux [] l

/-- The word-boundary test of the role-word regex built at route.ts line 1428
for a pattern that starts and ends with word characters (every normalized
role word does): an occurrence whose neighbours are absent or non-word
characters.  The boolean argument says whether the previous character is a
word character. -/
def bMatchAux (pat : List Char) : Bool → List Char → Bool
  | _, [] => false
  | prevW, c :: rest =>
    (!prevW && leadsWith pat (c :: rest)
      && (match (c :: rest).drop pat.length with
          | [] => true
          | d :: _ => !isWordChar d))
    || bMatchAux pat (isWordChar c) rest

/-- Word-boundary regex test from the start of the string. -/
def bMatch (pat hay : List Char) : Bool := bMatchAux pat false hay

/-- `isWhitelisted` (route.ts lines 1390–1479): role words (four match
modes), then organizations (equality or substring either way), then
addresses (substring either way, or ≥50% of the long address tokens matching
with at least two matches). -/
def isWhitelisted (entityText : String) : Bool :=
  let ne := normL entityText.data
  (WHITELISTED_ROLE_WORDS.any (fun roleWord =>
    let nr := normL roleWord.data
    ne == nr
    || ((splitOnSpace ne).length == 1 && (splitOnSpace ne).headD [] == nr)
    || (splitOnSpace ne).contains nr
    || bMatch nr ne))
  || (WHITELISTED_ORGANIZATIONS.any (fun org =>
    let no := normL org.data
    ne == no || hasSub no ne || hasSub ne no))
  || (WHITELISTED_ADDRESSES.any (fun address =>
    let na := normL address.data
    hasSub na ne || hasSub ne na
    || (let addressParts := (splitOnSpace na).filter (fun p => decide (2 < p.length))
        let entityParts := (splitOnSpace ne).filter (fun p => decide (2 < p.length))
        let matchingParts := addressParts.filter (fun part =>
          entityParts.any (fun ep => ep == part || hasSub part ep || hasSub ep part))
        decide (((matchingParts.length : ℚ) / (addressParts.length : ℚ)) ≥ 1/2)
          && decide (2 ≤ matchingParts.length))))

/-- The Levenshtein distance computed iteratively by `editDistance`
(route.ts lines 1667–1686), as its standard recursion. -/
def editDistance : List Char → List Char → Nat
  | [], t => t.length
  | s, [] => s.length
  | a :: as, b :: bs =>
    if a = b then editDistance as bs
    else 1 + min (editDistance as (b :: bs)) (min (editDistance (a :: as) bs) (editDistance as bs))
termination_by s t => s.length + t.length

/-- `calculateSimilarity` (route.ts lines 1661–1689):
`(longer.length − editDistance) / longer.length`, and 1 for two empty
strings. -/
def calculateSimilarity (s1 s2 : List Char) : ℚ :=
  let longer := if s1.length > s2.length then s1 else s2
  let shorter := if s1.length > s2.length then s2 else s1
  if longer.length = 0 then 1
  else ((longer.length : ℚ) - (editDistance longer shorter : ℚ)) / (longer.length : ℚ)

/-- Token containing `strasse` or `str` (route.ts line 1814). -/
def isStreetTok (p : List Char) : Bool :=
  hasSub "strasse".data p || hasSub "str".data p

/-- Token consisting of digits then at most one letter (route.ts line
1815). -/
def isNumberTok (p : List Char) : Bool :=
  let ds := p.takeWhile Char.isDigit
  !ds.isEmpty
    && (match p.drop ds.length with
        | [] => true
        | [c] => ('a' ≤ c && c ≤ 'z') || ('A' ≤ c && c ≤ 'Z')
        | _ => false)

/-- Token of exactly five digits (route.ts line 1816). -/
def isPostalTok (p : List Char) : Bool :=
  p.length == 5 && p.all Char.isDigit

/-- The street/number/postal/city components of `extractComponents`
(route.ts lines 1811–1824). -/
structure AddrComponents where
  street : List Char
  number : List Char
  postal : List Char
  city : List Char

/-- `extractComponents` (route.ts lines 1811–1824): first token of each kind,
empty when absent. -/
def extractComponents (addr : List Char) : AddrComponents :=
  let parts := (splitOnSpace addr).filter (fun p => !p.isEmpty)
  ⟨(parts.find? isStreetTok).getD [],
   (parts.find? isNumberTok).getD [],
   (parts.find? isPostalTok).getD [],
   (parts.find? (fun p => decide (2 < p.length) && !isStreetTok p && !isNumberTok p
      && !isPostalTok p)).getD []⟩

/-- The dynamic-exclusion part of the filter closure (route.ts lines
1747–1876): with no caller-supplied address the entity is kept; otherwise
substring containment, ≥0.85 whole-string similarity, the ≥0.6 token-match
ratio with ≥2 matches, and the 2-of-4 component match each exclude. -/
def dynamicKeep (excludeAddress : Option String) (entity : PIIEntity) : Bool :=
  match excludeAddress with
  | none => true
  | some addr =>
    let ne := normL entity.text.data
    let nx := normL addr.data
    if hasSub nx ne || hasSub ne nx then false
    else if decide (calculateSimilarity ne nx ≥ 17/20) then false
    else
      let excludeParts := (splitOnSpace nx).filter (fun p => decide (2 < p.length))
      let entityParts := (splitOnSpace ne).filter (fun p => decide (2 < p.length))
      let matchingParts := excludeParts.filter (fun part =>
        entityParts.any (fun ep =>
          ep == part || decide (calculateSimilarity ep part ≥ 17/20)))
      if decide (((matchingParts.length : ℚ) / (excludeParts.length : ℚ)) ≥ 3/5)
          && decide (2 ≤ matchingParts.length) then false
      else
        let ec := extractComponents ne
        let xc := extractComponents nx
        if !ec.street.isEmpty || !ec.number.isEmpty || !ec.postal.isEmpty
            || !ec.city.isEmpty then
          let street1 := !ec.street.isEmpty && !xc.street.isEmpty
            && decide (calculateSimilarity ec.street xc.street ≥ 3/4)
          let number1 := !ec.number.isEmpty && !xc.number.isEmpty && ec.number == xc.number
          let postal1 := !ec.postal.isEmpty && !xc.postal.isEmpty && ec.postal == xc.postal
          let city1 := !ec.city.isEmpty && !xc.city.isEmpty
            && decide (calculateSimilarity ec.city xc.city ≥ 3/4)
          if decide (2 ≤ (if street1 then 1 else 0) + (if number1 then 1 else 0)
              + (if postal1 then 1 else 0) + (if city1 then 1 else 0)) then false
          else true
        else true

/-- A bare energy-rating letter A–H with optional plus (route.ts line
1703). -/
def isEnergyLetterTok (p : List Char) : Bool :=
  match p with
  | [c] => ('A' ≤ c && c ≤ 'H') || ('a' ≤ c && c ≤ 'h')
  | [c, d] => (('A' ≤ c && c ≤ 'H') || ('a' ≤ c && c ≤ 'h')) && d == '+'
  | _ => false

/-- The three `Organization` noise suppressions (route.ts lines 1701–1720):
bare energy-rating letter, bare 1–3 digit number in 0…300, or length ≤ 2. -/
def orgNoise (tc : List Char) : Bool :=
  isEnergyLetterTok tc
  || (decide (1 ≤ tc.length) && decide (tc.length ≤ 3) && tc.all Char.isDigit
      && decide (0 ≤ digitsVal tc) && decide (digitsVal tc ≤ 300))
  || decide (tc.length ≤ 2)

/-- `nums = numberParts.map(p => parseInt(p, 10))` (route.ts line 1733); the
branch is only reached when every token parses, so the `getD` default is
never used there. -/
def numsOf (tc : List Char) : List Int :=
  (wsTokens tc).map (fun p => (jsParseInt p).getD 0)

/-- The energy-scale sequence suppression (route.ts lines 1722–1745): ≥3
whitespace tokens, all `parseInt` values in 0…300, and strictly increasing
or evenly spaced with first difference 25 or 50. -/
def energySeq (tc : List Char) : Bool :=
  decide (3 ≤ (wsTokens tc).length)
  && (wsTokens tc).all (fun part =>
      match jsParseInt part with
      | some v => decide (0 ≤ v) && decide (v ≤ 300)
      | none => false)
  && (chainIncr (numsOf tc)
      || ((decide (firstDiffOf (numsOf tc) = 25) || decide (firstDiffOf (numsOf tc) = 50))
          && chainDiff (firstDiffOf (numsOf tc)) (numsOf tc)))

/-- The predicate of `entities.filter(entity => ...)`
(route.ts lines 1691–1877): static whitelist, Organization noise, the
energy-scale sequence, then dynamic exclusion. -/
def filterKeep (excludeAddress : Option String) (entity : PIIEntity) : Bool :=
  if isWhitelisted entity.text then false
  else
    let tc := trimJS (entity.text.data.map nl2sp)
    if entity.category == "Organization" && orgNoise tc then false
    else if energySeq tc then false
    else dynamicKeep excludeAddress entity

/-- `filteredEntities` (route.ts line 1691). -/
def filteredEntities (excludeAddress : Option String) (entities : List PIIEntity) :
    List PIIEntity :=
  entities.filter (filterKeep excludeAddress)

/-- The claim's retained example: text `"17 203 4"`, not an energy scale. -/
def e17 : PIIEntity := ⟨"17 203 4", "Person", 0, 8, 1⟩

/-- The claim's dropped example: text `"25 50 75 100"`. -/
def e25 : PIIEntity := ⟨"25 50 75 100", "Organization", 0, 12, 1⟩

/-! ### Phone-candidate emission (`detectCustomPatterns`, route.ts lines
744–782): the per-candidate decision applied to each match of the phone
pattern. -/

/-- `phoneCandidate.replace(/[\s\-\(\)\n\r]/g, '')` (route.ts line 747);
`\s` already covers `\n` and `\r`. -/
def digitsOnlyOf (cand : List Char) : List Char :=
  cand.filter (fun c => !(isWsJS c || c = '-' || c = '(' || c = ')'))

/-- `digitsOnly.match(/^\d{1,3}(\d{1,3})*$/)` (route.ts line 757).  Any
nonempty string of digits splits into groups of one to three digits, so this
regex matches exactly the nonempty all-digit strings — the "all digit groups
are 1–3 digits" reading of the comment above it is not what it tests. -/
def digitRunRegexB (l : List Char) : Bool :=
  !l.isEmpty && l.all Char.isDigit

/-- `/^(25|50|75|100|125|150|175|200|225|250)/.test(digitsOnly)`
(route.ts line 759). -/
def anchorStart (l : List Char) : Bool :=
  (["25", "50", "75", "100", "125", "150", "175", "200", "225", "250"].map
    String.data).any (fun a => leadsWith a l)

/-- `isLikelyEnergyScale` (route.ts lines 753–760). -/
def isLikelyEnergyScale (cand : List Char) : Bool :=
  (cand.contains '\n' || cand.contains '\r')
  && digitRunRegexB (digitsOnlyOf cand)
  && anchorStart (digitsOnlyOf cand)

/-- `spaceSeparatedNumbers` (route.ts line 763): replace `\n\r` with spaces,
split on whitespace runs, drop empty strings. -/
def spaceSeparatedNumbers (cand : List Char) : List (List Char) :=
  wsTokens (cand.map nl2sp)

/-- `hasEnoughSmallNumbers` (route.ts lines 764–768): at least three
whitespace tokens, each parsing (`parseInt(num, 10)`) to a number ≤ 300. -/
def hasEnoughSmallNumbers (cand : List Char) : Bool :=
  decide (3 ≤ (spaceSeparatedNumbers cand).length)
  && (spaceSeparatedNumbers cand).all (fun num =>
      match jsParseInt num with
      | some v => decide (v ≤ 300)
      | none => false)

/-- Is a phone-pattern match emitted as a PhoneNumber entity?  Route.ts lines
750–782: `continue` when fewer than 10 digits remain, `continue` when
`isLikelyEnergyScale || hasEnoughSmallNumbers`, otherwise push. -/
def phoneCandidateEmitted (cand : List Char) : Bool :=
  if (digitsOnlyOf cand).length < 10 then false
  else if isLikelyEnergyScale cand || hasEnoughSmallNumbers cand then false
  else true

/-- The suppression condition as the specification words it: a line break AND
all maximal digit groups of length ≤ 3 AND the concatenated digits start with
a scale anchor; OR at least three whitespace tokens that are all integers
≤ 300. -/
def c8ClaimSuppress (cand : List Char) : Bool :=
  ((cand.contains '\n' || cand.contains '\r')
    && (splitRuns Char.isDigit cand).all (fun g => decide (g.length ≤ 3))
    && anchorStart (cand.filter Char.isDigit))
  || hasEnoughSmallNumbers cand

/-- Emission as the specification words it: not suppressed, and total digit
count at least 10. -/
def c8ClaimEmit (cand : List Char) : Bool :=
  !c8ClaimSuppress cand && decide (10 ≤ (cand.filter Char.isDigit).length)

/-- A candidate the phone pattern matches
(`251` `\n` `2345` ` ` `678` ` ` `9012`): it contains a digit group of four
digits, so the claim's first suppression clause is off, and its second token
parses to 2345 > 300, so the second clause is off too. -/
def c8Fail : List Char := "251\n2345 678 9012".data

/-! ### Primary signature pass (`detectSignaturesFromStyles`, route.ts lines
1076–1292) -/

/-- JavaScript `substring(a, b)`: clamp both arguments into `[0, length]` and
swap them when out of order. -/
def jsSubstring (s : List Char) (a b : Int) : List Char :=
  let x := (max 0 (min a (s.length : Int))).toNat
  let y := (max 0 (min b (s.length : Int))).toNat
  (s.take (max x y)).drop (min x y)

/-- `signatureLabels` (route.ts lines 1085–1100). -/
def signatureLabels : List String :=
  ["unterschrift", "unterschriften", "signature", "signatures", "signed",
   "datum/unterschrift", "unterzeichner", "unterzeichnet", "gezeichnet",
   "gez.", "i.a.", "ppa.", "protokollführer", "zeuge"]

/-- `content.substring(span.offset, span.offset + span.length).trim()`
(route.ts line 1129). -/
def sigText (content : List Char) (span : SpanT) : List Char :=
  trimJS (jsSubstring content span.offset (span.offset + span.length))

/-- The ±150-character context window, lowercased (route.ts lines
1132–1135). -/
def contextOf (content : List Char) (span : SpanT) : List Char :=
  (jsSubstring content (max 0 (span.offset - 150))
    (min (content.length : Int) (span.offset + span.length + 150))).map jsLowerChar

/-- `isNearSignatureLabel` (route.ts line 1136). -/
def textualNearB (content : List Char) (span : SpanT) : Bool :=
  signatureLabels.any (fun lab => hasSub lab.data (contextOf content span))

/-- `/^[\d\s.,€$%]+$/`: pure numbers/currency. -/
def ffNumCur (t : List Char) : Bool :=
  !t.isEmpty && t.all (fun c =>
    c.isDigit || isWsJS c || c = '.' || c = ',' || c = '€' || c = '$' || c = '%')

/-- The trailing `[.,]` two-digit `[.,]` four-digit part of the date
pattern. -/
def ffDateTail : List Char → Bool
  | [s1, a, b, s2, c, d, e, f] =>
    (s1 = '.' || s1 = ',') && a.isDigit && b.isDigit && (s2 = '.' || s2 = ',')
      && c.isDigit && d.isDigit && e.isDigit && f.isDigit
  | _ => false

/-- `/^\d\{1,2\x7d[.,]\d\{2\x7d[.,]\d\{4\x7d$/`: dates; the leading digit run may
be one or two digits long (the alternation mirrors the regex backtracking). -/
def ffDate : List Char → Bool
  | x :: y :: rest => x.isDigit && (ffDateTail (y :: rest) || (y.isDigit && ffDateTail rest))
  | _ => false

/-- `/^[xX✓✗]$/`: checkmarks. -/
def ffCheck (t : List Char) : Bool :=
  decide (t = ['x']) || decide (t = ['X']) || decide (t = ['✓']) || decide (t = ['✗'])

/-- `/^ja$/i` and `/^nein$/i`: yes/no. -/
def ffJaNein (t : List Char) : Bool :=
  decide (t.map jsLowerChar = ['j', 'a']) || decide (t.map jsLowerChar = ['n', 'e', 'i', 'n'])

/-- `/^EUR?$/i`: currency symbols. -/
def ffEur (t : List Char) : Bool :=
  decide (t.map jsLowerChar = ['e', 'u']) || decide (t.map jsLowerChar = ['e', 'u', 'r'])

/-- `/^\d\{5\x7d$/`: postal codes. -/
def ffPostal (t : List Char) : Bool :=
  decide (t.length = 5) && t.all Char.isDigit

/-- Consume the shared prefix `\d+[.,]?\d*\s*` of the three measurement
patterns greedily (`none` when there is no leading digit); greedy matching is
exact for these patterns because the optional separator can never start the
trailing literal. -/
def numUnitRest (t : List Char) : Option (List Char) :=
  if (t.takeWhile Char.isDigit).isEmpty then none
  else
    some ((((match t.dropWhile Char.isDigit with
      | c :: r => if c = '.' || c = ',' then r else c :: r
      | [] => []).dropWhile Char.isDigit)).dropWhile isWsJS)

/-- `/^\d+[.,]?\d*\s*kWh/i`: energy values. -/
def ffKwh (t : List Char) : Bool :=
  match numUnitRest t with
  | some r => leadsWith ['k', 'w', 'h'] (r.map jsLowerChar)
  | none => false

/-- `/^\d+[.,]?\d*\s*m[²2³3]/i`: area measurements. -/
def ffSquare (t : List Char) : Bool :=
  match numUnitRest t with
  | some (m :: u :: _) =>
    (m = 'm' || m = 'M') && (u = '²' || u = '2' || u = '³' || u = '3')
  | _ => false

/-- `/^\d+[.,]?\d*\s*%$/`: percentage values. -/
def ffPercent (t : List Char) : Bool :=
  match numUnitRest t with
  | some r => decide (r = ['%'])
  | none => false

/-- `/^[A-H]\+?$/i`: energy efficiency ratings. -/
def ffEnergyRating (t : List Char) : Bool :=
  match t with
  | [c] => ('A' ≤ c && c ≤ 'H') || ('a' ≤ c && c ≤ 'h')
  | [c, p] => (('A' ≤ c && c ≤ 'H') || ('a' ≤ c && c ≤ 'h')) && p = '+'
  | _ => false

/-- `/^>?\d+$/`: numbers with optional `>`. -/
def ffGtNum : List Char → Bool
  | '>' :: r => !r.isEmpty && r.all Char.isDigit
  | r => !r.isEmpty && r.all Char.isDigit

/-- `/^\d\{1,3\x7d$/`: short numbers. -/
def ffShortNum (t : List Char) : Bool :=
  decide (1 ≤ t.length) && decide (t.length ≤ 3) && t.all Char.isDigit

/-- `/^[A-Z]\{1,5\x7d$/`: short letter codes (no `i` flag in the source). -/
def ffLetterCode (t : List Char) : Bool :=
  decide (1 ≤ t.length) && decide (t.length ≤ 5) && t.all (fun c => 'A' ≤ c && c ≤ 'Z')

/-- `formFieldPatterns.some(pattern => pattern.test(handwrittenText))`
(route.ts lines 1103–1117 and 1147). -/
def formFieldAny (t : List Char) : Bool :=
  ffNumCur t || ffDate t || ffCheck t || ffJaNein t || ffEur t || ffPostal t
  || ffKwh t || ffSquare t || ffPercent t || ffEnergyRating t || ffGtNum t
  || ffShortNum t || ffLetterCode t

/-- An element of `matchingWords` (route.ts lines 1156–1175). -/
structure MWord where
  word : DocIntelWord
  pageIndex : Nat
  pageHeight : ℚ
  pageUnit : String
deriving DecidableEq, Repr

/-- The words of all pages whose spans overlap the handwritten span
(route.ts lines 1158–1176); `page.unit || 'inch'` defaults the empty
string. -/
def matchingWordsOf (pages : List DocIntelPage) (span : SpanT) : List MWord :=
  pages.enum.flatMap (fun pi =>
    (pi.2.words.filter (fun w =>
      decide (w.span.offset < span.offset + span.length)
        && decide (span.offset < w.span.offset + w.span.length))).map
      (fun w => ⟨w, pi.1, pi.2.height, if pi.2.unit = "" then "inch" else pi.2.unit⟩))

/-- `(polygon[1] + polygon[5]) / 2`: vertical centre of a word. -/
def wordCtrY (w : DocIntelWord) : ℚ := (polyAt w 1 + polyAt w 5) / 2

/-- `(polygon[0] + polygon[2]) / 2`: horizontal centre of a word. -/
def wordCtrX (w : DocIntelWord) : ℚ := (polyAt w 0 + polyAt w 2) / 2

/-- Does a page word's lowercased content contain a signature label
(route.ts lines 1192–1193)? -/
def isLabelWord (pw : DocIntelWord) : Bool :=
  signatureLabels.any (fun lab => hasSub lab.data (pw.content.data.map jsLowerChar))

/-- `isNearLabelSpatially` (route.ts lines 1188–1209): some label word of the
first matching word's page within 2.0 vertical and 4.0 horizontal page
units; an out-of-range page index leaves it false (the `if (samePage)`
guard), modelled by the empty `defaultPage`. -/
def spatialNearB (pages : List DocIntelPage) (mw0 : MWord) : Bool :=
  (pages.getD mw0.pageIndex defaultPage).words.any (fun pw =>
    isLabelWord pw
    && decide (|wordCtrY mw0.word - wordCtrY pw| < 2)
    && decide (|wordCtrX mw0.word - wordCtrX pw| < 4))

/-- `avgWordY` (route.ts lines 1224–1228). -/
def avgWordY (mws : List MWord) : ℚ :=
  (mws.map (fun mw => (polyAt mw.word 1 + polyAt mw.word 5) / 2)).sum / mws.length

/-- `isInBottomPortion` (route.ts line 1231): average word centre below 75 %
of the first matching word's page height. -/
def bottomB (mw0 : MWord) (rest : List MWord) : Bool :=
  decide (avgWordY (mw0 :: rest) > mw0.pageHeight * (3 / 4))

/-- The even-index entries of a polygon (the x coordinates). -/
def evens : List ℚ → List ℚ
  | [] => []
  | [a] => [a]
  | a :: _ :: r => a :: evens r

/-- The odd-index entries of a polygon (the y coordinates). -/
def odds : List ℚ → List ℚ
  | [] => []
  | _ :: t => evens t

/-- `Math.min` folded over a list; the source starts from `Infinity`, so on a
nonempty list this is the same value, and the empty case (only reachable for
words with empty polygons) is modelled as 0. -/
def qMinL : List ℚ → ℚ
  | [] => 0
  | a :: t => t.foldl min a

/-- `Math.max` folded over a list, starting from `-Infinity` in the source. -/
def qMaxL : List ℚ → ℚ
  | [] => 0
  | a :: t => t.foldl max a

/-- Signature padding, `0.05` page units (route.ts line 1259). -/
def SIG_PAD : ℚ := 1 / 20

/-- The x coordinates collected from all matching words' polygons. -/
def sigXs (mw0 : MWord) (rest : List MWord) : List ℚ :=
  (mw0 :: rest).flatMap (fun mw => evens mw.word.polygon)

/-- The y coordinates collected from all matching words' polygons. -/
def sigYs (mw0 : MWord) (rest : List MWord) : List ℚ :=
  (mw0 :: rest).flatMap (fun mw => odds mw.word.polygon)

/-- The inch-to-points factor (route.ts lines 1266–1272). -/
def sigF (mw0 : MWord) : ℚ := if mw0.pageUnit = "inch" then 72 else 1

/-- The signature region pushed at route.ts lines 1241–1285: bounding box of
all matching words' polygons, padded by 0.05 with the left/top subtraction
clamped at zero, scaled by 72 when the page unit is `"inch"`. -/
def mkSigRegion (t : List Char) (mw0 : MWord) (rest : List MWord) : RedactionCoordinate :=
  ⟨mw0.pageIndex,
   sigF mw0 * max 0 (qMinL (sigXs mw0 rest) - SIG_PAD),
   sigF mw0 * max 0 (qMinL (sigYs mw0 rest) - SIG_PAD),
   sigF mw0 * (qMaxL (sigXs mw0 rest) + SIG_PAD - max 0 (qMinL (sigXs mw0 rest) - SIG_PAD)),
   sigF mw0 * (qMaxL (sigYs mw0 rest) + SIG_PAD - max 0 (qMinL (sigYs mw0 rest) - SIG_PAD)),
   some ("[Signature: " ++ String.mk (t.take 30) ++ "...]"), some "Signature"⟩

/-- Processing of one handwritten span (route.ts lines 1127–1291): the length
filter against the textual signal only, the form-field filter, the
requirement of a matching word, the literal re-check of lines 1215–1220
(which can never skip), and the final accept rule. -/
def processSpan (content : List Char) (pages : List DocIntelPage) (span : SpanT) :
    Option RedactionCoordinate :=
  if (sigText content span).length < (if textualNearB content span then 2 else 3) then
    none
  else if formFieldAny (sigText content span) then none
  else
    match matchingWordsOf pages span with
    | [] => none
    | mw0 :: rest =>
      if !(!textualNearB content span && spatialNearB pages mw0
            && decide (2 ≤ (sigText content span).length))
          && decide ((sigText content span).length
            < if textualNearB content span || spatialNearB pages mw0 then 2 else 3) then
        none
      else if textualNearB content span || spatialNearB pages mw0
          || (bottomB mw0 rest && decide (5 ≤ (sigText content span).length)) then
        some (mkSigRegion (sigText content span) mw0 rest)
      else
        none

/-- The primary signature pass (route.ts lines 1122–1292): every span of
every style with `isHandwritten === true`, processed by `processSpan`. -/
def signaturesPrimary (doc : AnalyzeResult) : List RedactionCoordinate :=
  ((doc.styles.getD []).filter (fun st => st.isHandwritten == some true)).flatMap
    (fun st => st.spans.filterMap (processSpan doc.content.data doc.pages))

/-- Acceptance as `processSpan` actually decides it, flattened: the length
threshold is 2 only under the *textual* signal, and a matching word is
required. -/
def c7Accept (content : List Char) (pages : List DocIntelPage) (span : SpanT) : Bool :=
  match matchingWordsOf pages span with
  | [] => false
  | mw0 :: rest =>
    decide ((if textualNearB content span then 2 else 3) ≤ (sigText content span).length)
    && !formFieldAny (sigText content span)
    && (textualNearB content span || spatialNearB pages mw0
        || (bottomB mw0 rest && decide (5 ≤ (sigText content span).length)))

/-- Acceptance as the specification words it: the length threshold is 2 when
the span is near a label by either the textual or the spatial signal. -/
def claimC7Accept (content : List Char) (pages : List DocIntelPage) (span : SpanT) : Bool :=
  match matchingWordsOf pages span with
  | [] => false
  | mw0 :: rest =>
    decide ((if textualNearB content span || spatialNearB pages mw0 then 2 else 3)
      ≤ (sigText content span).length)
    && !formFieldAny (sigText content span)
    && (textualNearB content span || spatialNearB pages mw0
        || (bottomB mw0 rest && decide (5 ≤ (sigText content span).length)))

/-- 151 filler characters that contain no signature label. -/
def cxFiller : String := String.mk (List.replicate 151 'q')

/-- Document text: a two-character handwritten mark, filler pushing the
label `"Unterschrift"` past the 150-character context radius of the span
`(0, 2)`. -/
def cxC7content : String := "Ab" ++ cxFiller ++ " Unterschrift"

/-- The handwritten word `"Ab"` at the same spot as the label word. -/
def cxAbWord : DocIntelWord := ⟨"Ab", [1, 1, 2, 1, 2, 2, 1, 2], ⟨0, 2⟩, 1⟩

/-- The label word `"Unterschrift"`, textually far but spatially at the same
centre as `cxAbWord`. -/
def cxLabelWord : DocIntelWord := ⟨"Unterschrift", [1, 1, 2, 1, 2, 2, 1, 2], ⟨154, 12⟩, 1⟩

/-- The single page of the C7 counterexample document. -/
def cxC7page : DocIntelPage := ⟨1, 0, 8, 10, "inch", [cxAbWord, cxLabelWord]⟩

/-- The handwritten span of the C7 counterexample. -/
def cxC7span : SpanT := ⟨0, 2⟩

/-- A document whose only handwritten span is `"Ab"`: spatially near a label
but textually not, so the specification's 2-character threshold would accept
it while the code's textual-only threshold drops it. -/
def cxDoc7 : AnalyzeResult :=
  ⟨cxC7content, [cxC7page], some [⟨some true, [cxC7span], 1⟩]⟩

/-- Document text of the C10 witness. -/
def wC10content : String := "Unterschrift Max"

/-- The label word of the C10 witness page. -/
def wLabelWord10 : DocIntelWord := ⟨"Unterschrift", [1, 1, 2, 1, 2, 2, 1, 2], ⟨0, 12⟩, 1⟩

/-- The handwritten word of the C10 witness page. -/
def wSigWord10 : DocIntelWord := ⟨"Max", [1, 1, 2, 1, 2, 2, 1, 2], ⟨13, 3⟩, 1⟩

/-- The single inch-unit page of the C10 witness document. -/
def wPage10 : DocIntelPage := ⟨1, 0, 8, 11, "inch", [wLabelWord10, wSigWord10]⟩

/-- A document with one handwritten span `"Max"` next to `"Unterschrift"`. -/
def wDoc10 : AnalyzeResult :=
  ⟨wC10content, [wPage10], some [⟨some true, [⟨13, 3⟩], 1⟩]⟩

/-- A PII entity covering the word `"Max"` of the C10 witness document. -/
def wEnt10 : PIIEntity := ⟨"Max", "Person", 13, 3, 1⟩

/-- Degenerate region used as the `headD` default when reading off concrete
results. -/
def degenR : RedactionCoordinate := ⟨0, 0, 0, 0, 0, none, none⟩

-- ===== Derived properties and claims =====

theorem processCustom_eq (c : PIIEntity) :
    ∀ (az m : List PIIEntity),
      processCustom c m az = (applyRemovals (scanAzure c az).1 m, (scanAzure c az).2)
  | [], _ => rfl
  | a :: rest, m => by
    simp only [processCustom, scanAzure]
    split_ifs with h1 h2 h3 h4
    · simpa [applyRemovals] using processCustom_eq c rest (removeFirstMatch ⟨a.offset, a.length, "Organization"⟩ m)
    · simpa [applyRemovals] using processCustom_eq c rest (removeFirstMatch ⟨a.offset, a.length, "PhoneNumber"⟩ m)
    · simpa [applyRemovals] using processCustom_eq c rest
        (removeFirstMatch ⟨a.offset, a.length, "InternationalBankingAccountNumber"⟩ m)
    · simp [applyRemovals]
    · exact processCustom_eq c rest m

theorem mergeStep_eq (az m : List PIIEntity) (c : PIIEntity) :
    mergeStep az m c
      = applyRemovals (remKeys az c) m ++ (if acceptedE az c then [c] else []) := by
  simp only [mergeStep, processCustom_eq, remKeys, acceptedE]
  by_cases hb : (scanAzure c az).2 = true <;> simp [hb]

theorem matchKeyB_unique {k k' : EKey} {e : PIIEntity}
    (h : matchKeyB k e = true) (h' : matchKeyB k' e = true) : k = k' := by
  simp only [matchKeyB, Bool.and_eq_true, decide_eq_true_eq] at h h'
  cases k; cases k'
  simp_all

theorem removeFirstMatch_of_no_match {k : EKey} :
    ∀ {m : List PIIEntity}, (∀ e ∈ m, matchKeyB k e = false) → removeFirstMatch k m = m
  | [], _ => rfl
  | e :: rest, h => by
    have he := h e (by simp)
    simp only [removeFirstMatch, he, Bool.false_eq_true, if_false]
    rw [removeFirstMatch_of_no_match (fun x hx => h x (by simp [hx]))]

theorem mem_of_mem_removeFirstMatch {k : EKey} {x : PIIEntity} :
    ∀ {m : List PIIEntity}, x ∈ removeFirstMatch k m → x ∈ m
  | e :: rest, h => by
    by_cases hm : matchKeyB k e = true
    · simp only [removeFirstMatch, hm, if_true] at h
      exact List.mem_cons_of_mem _ h
    · simp only [removeFirstMatch, hm, if_false] at h
      rcases List.mem_cons.mp h with h | h
      · exact h ▸ List.mem_cons_self _ _
      · exact List.mem_cons_of_mem _ (mem_of_mem_removeFirstMatch h)

theorem mem_removeFirstMatch_of_no_match {k : EKey} {x : PIIEntity}
    (hx : matchKeyB k x = false) :
    ∀ {m : List PIIEntity}, x ∈ m → x ∈ removeFirstMatch k m
  | e :: rest, h => by
    by_cases hm : matchKeyB k e = true
    · simp only [removeFirstMatch, hm, if_true]
      rcases List.mem_cons.mp h with h | h
      · exact absurd (h ▸ hm) (by simp [hx])
      · exact h
    · simp only [removeFirstMatch, hm, if_false]
      rcases List.mem_cons.mp h with h | h
      · exact h ▸ List.mem_cons_self _ _
      · exact List.mem_cons_of_mem _ (mem_removeFirstMatch_of_no_match hx h)

theorem removeFirstMatch_countP_other {k k' : EKey} (hne : k ≠ k') :
    ∀ (m : List PIIEntity),
      (removeFirstMatch k' m).countP (matchKeyB k) = m.countP (matchKeyB k)
  | [] => rfl
  | e :: rest => by
    by_cases hm : matchKeyB k' e = true
    · have hke : matchKeyB k e = false := by
        by_contra h
        exact hne (matchKeyB_unique (Bool.of_not_eq_false h) hm)
      simp [removeFirstMatch, hm, List.countP_cons, hke]
    · simp [removeFirstMatch, hm, List.countP_cons,
        removeFirstMatch_countP_other hne rest]

theorem removeFirstMatch_countP_self {k : EKey} :
    ∀ (m : List PIIEntity), 0 < m.countP (matchKeyB k) →
      (removeFirstMatch k m).countP (matchKeyB k) = m.countP (matchKeyB k) - 1
  | e :: rest, h => by
    by_cases hm : matchKeyB k e = true
    · simp [removeFirstMatch, hm, List.countP_cons]
    · simp only [List.countP_cons, hm, Bool.false_eq_true, if_false, Nat.add_zero] at h ⊢
      simp [removeFirstMatch, hm, List.countP_cons,
        removeFirstMatch_countP_self rest h]

theorem applyRemovals_cons (k : EKey) (ks : List EKey) (m : List PIIEntity) :
    applyRemovals (k :: ks) m = applyRemovals ks (removeFirstMatch k m) := rfl

theorem applyRemovals_append_keys (ks1 ks2 : List EKey) (m : List PIIEntity) :
    applyRemovals (ks1 ++ ks2) m = applyRemovals ks2 (applyRemovals ks1 m) :=
  List.foldl_append ..

theorem applyRemovals_countP_zero {k : EKey} :
    ∀ (ks : List EKey) (m : List PIIEntity),
      m.countP (matchKeyB k) ≤ ks.count k →
      (applyRemovals ks m).countP (matchKeyB k) = 0
  | [], m, h => Nat.le_zero.mp (by simpa using h)
  | k' :: ks, m, h => by
    rw [applyRemovals_cons]
    by_cases hkk : k' = k
    · subst hkk
      rcases Nat.eq_zero_or_pos (m.countP (matchKeyB k')) with h0 | hpos
      · have : removeFirstMatch k' m = m := by
          apply removeFirstMatch_of_no_match
          intro e he
          by_contra hh
          have := List.countP_pos_iff.mpr ⟨e, he, Bool.of_not_eq_false hh⟩
          omega
        rw [this]
        exact applyRemovals_countP_zero ks m (by simp [h0])
      · apply applyRemovals_countP_zero ks
        rw [removeFirstMatch_countP_self m hpos]
        have hc : (k' :: ks).count k' = ks.count k' + 1 := by
          simp [List.count_cons]
        omega
    · apply applyRemovals_countP_zero ks
      rw [removeFirstMatch_countP_other (fun hh => hkk hh.symm) m]
      have hc : (k' :: ks).count k = ks.count k := by
        simp [List.count_cons, hkk]
      omega

theorem mem_applyRemovals_of_no_match {x : PIIEntity} :
    ∀ (ks : List EKey) (m : List PIIEntity), x ∈ m →
      (∀ kk ∈ ks, matchKeyB kk x = false) → x ∈ applyRemovals ks m
  | [], _, hx, _ => hx
  | k :: ks, m, hx, h => by
    rw [applyRemovals_cons]
    exact mem_applyRemovals_of_no_match ks _
      (mem_removeFirstMatch_of_no_match (h k (by simp)) hx)
      (fun kk hkk => h kk (by simp [hkk]))

theorem removeFirstMatch_append {k : EKey} {app : List PIIEntity}
    (happ : ∀ x ∈ app, matchKeyB k x = false) :
    ∀ (m : List PIIEntity), removeFirstMatch k (m ++ app) = removeFirstMatch k m ++ app
  | [] => by simp [removeFirstMatch, removeFirstMatch_of_no_match happ]
  | e :: rest => by
    by_cases hm : matchKeyB k e = true <;>
      simp [removeFirstMatch, hm, removeFirstMatch_append happ rest]

theorem applyRemovals_append_entities {app : List PIIEntity} :
    ∀ (ks : List EKey) (m : List PIIEntity),
      (∀ kk ∈ ks, ∀ x ∈ app, matchKeyB kk x = false) →
      applyRemovals ks (m ++ app) = applyRemovals ks m ++ app
  | [], _, _ => rfl
  | k :: ks, m, h => by
    rw [applyRemovals_cons, applyRemovals_cons,
      removeFirstMatch_append (h k (by simp)) m]
    exact applyRemovals_append_entities ks _ (fun kk hkk => h kk (by simp [hkk]))

theorem removeFirstMatch_comm (k1 k2 : EKey) :
    ∀ (m : List PIIEntity),
      removeFirstMatch k2 (removeFirstMatch k1 m) = removeFirstMatch k1 (removeFirstMatch k2 m)
  | [] => rfl
  | e :: rest => by
    by_cases h12 : k1 = k2
    · subst h12; rfl
    · by_cases hm1 : matchKeyB k1 e = true
      · have hm2 : matchKeyB k2 e = false := by
          by_contra hh
          exact h12 (matchKeyB_unique hm1 (Bool.of_not_eq_false hh))
        simp [removeFirstMatch, hm1, hm2]
      · by_cases hm2 : matchKeyB k2 e = true
        · simp [removeFirstMatch, hm1, hm2]
        · simp [removeFirstMatch, hm1, hm2, removeFirstMatch_comm k1 k2 rest]

theorem applyRemovals_perm_keys {ks ks' : List EKey} (h : ks.Perm ks') :
    ∀ (m : List PIIEntity), applyRemovals ks m = applyRemovals ks' m := by
  induction h with
  | nil => intro m; rfl
  | cons k _ ih => intro m; rw [applyRemovals_cons, applyRemovals_cons, ih]
  | swap k1 k2 l =>
    intro m
    rw [applyRemovals_cons, applyRemovals_cons, applyRemovals_cons, applyRemovals_cons,
      removeFirstMatch_comm]
  | trans _ _ ih1 ih2 => intro m; rw [ih1, ih2]

theorem hasOverlapB_congr {c a b : PIIEntity} (ho : a.offset = b.offset)
    (hl : a.length = b.length) : hasOverlapB c a = hasOverlapB c b := by
  simp [hasOverlapB, ho, hl]

theorem scanAzure_keys_origin {c : PIIEntity} {k : EKey} :
    ∀ {az : List PIIEntity}, k ∈ (scanAzure c az).1 →
      ∃ a ∈ az, k = ⟨a.offset, a.length, a.category⟩ ∧ ruleFires c a
  | [], h => absurd h (by simp [scanAzure])
  | a :: rest, h => by
    simp only [scanAzure] at h
    split_ifs at h with h1 h2 h3 h4
    · simp only [Bool.and_eq_true, decide_eq_true_eq] at h1
      rcases List.mem_cons.mp h with h | h
      · exact ⟨a, by simp, by rw [h, h1.2], Or.inl ⟨h1.1.2, h1.2⟩⟩
      · obtain ⟨b, hb, hk, hr⟩ := scanAzure_keys_origin h
        exact ⟨b, by simp [hb], hk, hr⟩
    · simp only [Bool.and_eq_true, decide_eq_true_eq] at h2
      rcases List.mem_cons.mp h with h | h
      · exact ⟨a, by simp, by rw [h, h2.2], Or.inr (Or.inl ⟨h2.1.2, h2.2⟩)⟩
      · obtain ⟨b, hb, hk, hr⟩ := scanAzure_keys_origin h
        exact ⟨b, by simp [hb], hk, hr⟩
    · simp only [Bool.and_eq_true, decide_eq_true_eq] at h3
      rcases List.mem_cons.mp h with h | h
      · exact ⟨a, by simp, by rw [h, h3.2], Or.inr (Or.inr ⟨h3.1.2, h3.2⟩)⟩
      · obtain ⟨b, hb, hk, hr⟩ := scanAzure_keys_origin h
        exact ⟨b, by simp [hb], hk, hr⟩
    · exact absurd h (by simp)
    · obtain ⟨b, hb, hk, hr⟩ := scanAzure_keys_origin h
      exact ⟨b, by simp [hb], hk, hr⟩


theorem scanAzure_not_stopped {c : PIIEntity} :
    ∀ {az : List PIIEntity}, (scanAzure c az).2 = false →
      ∀ a ∈ az, hasOverlapB c a = true → ruleFires c a
  | [], _, a, ha, _ => absurd ha (by simp)
  | b :: rest, h, a, ha, hov => by
    simp only [scanAzure] at h
    split_ifs at h with h1 h2 h3 h4
    · rcases List.mem_cons.mp ha with rfl | ha'
      · simp only [Bool.and_eq_true, decide_eq_true_eq] at h1
        exact Or.inl ⟨h1.1.2, h1.2⟩
      · exact scanAzure_not_stopped h a ha' hov
    · rcases List.mem_cons.mp ha with rfl | ha'
      · simp only [Bool.and_eq_true, decide_eq_true_eq] at h2
        exact Or.inr (Or.inl ⟨h2.1.2, h2.2⟩)
      · exact scanAzure_not_stopped h a ha' hov
    · rcases List.mem_cons.mp ha with rfl | ha'
      · simp only [Bool.and_eq_true, decide_eq_true_eq] at h3
        exact Or.inr (Or.inr ⟨h3.1.2, h3.2⟩)
      · exact scanAzure_not_stopped h a ha' hov
    · rcases List.mem_cons.mp ha with rfl | ha'
      · exact absurd hov h4
      · exact scanAzure_not_stopped h a ha' hov

theorem scanAzure_not_stopped_of_rules {c : PIIEntity} :
    ∀ {az : List PIIEntity}, (∀ a ∈ az, hasOverlapB c a = true → ruleFires c a) →
      (scanAzure c az).2 = false
  | [], _ => rfl
  | b :: rest, h => by
    have hrest : (scanAzure c rest).2 = false :=
      scanAzure_not_stopped_of_rules (fun a ha hov => h a (by simp [ha]) hov)
    simp only [scanAzure]
    split_ifs with h1 h2 h3 h4
    · exact hrest
    · exact hrest
    · exact hrest
    · exfalso
      rcases h b (by simp) h4 with ⟨hc, hb⟩ | ⟨hc, hb⟩ | ⟨hc, hb⟩
      · exact h1 (by simp [h4, hc, hb])
      · exact h2 (by simp [h4, hc, hb])
      · exact h3 (by simp [h4, hc, hb])
    · exact hrest

theorem matchKeyB_false_of_accepted {az : List PIIEntity}
    (hpos : ∀ a ∈ az, 0 < a.length) {x : PIIEntity} (hacc : acceptedE az x = true)
    {c' : PIIEntity} {k : EKey} (hk : k ∈ remKeys az c') : matchKeyB k x = false := by
  by_contra hh
  have hm := Bool.of_not_eq_false hh
  obtain ⟨a, ha, hkey, _⟩ := scanAzure_keys_origin hk
  subst hkey
  simp only [matchKeyB, Bool.and_eq_true, decide_eq_true_eq] at hm
  obtain ⟨⟨ho, hl⟩, hc⟩ := hm
  have hov : hasOverlapB x a = true := by
    simp only [hasOverlapB, Bool.and_eq_true, decide_eq_true_eq]
    have := hpos a ha
    omega
  have hstop : (scanAzure x az).2 = false := by
    simpa [acceptedE] using hacc
  rcases scanAzure_not_stopped hstop a ha hov with ⟨h1, h2⟩ | ⟨h1, h2⟩ | ⟨h1, h2⟩ <;>
    simp_all

theorem foldl_mergeStep_closed {az : List PIIEntity} (hpos : ∀ a ∈ az, 0 < a.length) :
    ∀ (cs azp app : List PIIEntity), (∀ x ∈ app, acceptedE az x = true) →
      cs.foldl (mergeStep az) (azp ++ app)
        = applyRemovals (cs.flatMap (remKeys az)) azp ++ app ++ cs.filter (acceptedE az)
  | [], azp, app, _ => by simp [applyRemovals]
  | c :: cs, azp, app, happ => by
    have hsafe : ∀ kk ∈ remKeys az c, ∀ x ∈ app, matchKeyB kk x = false :=
      fun kk hkk x hx => matchKeyB_false_of_accepted hpos (happ x hx) hkk
    have hstep : mergeStep az (azp ++ app) c
        = applyRemovals (remKeys az c) azp
          ++ (app ++ (if acceptedE az c then [c] else [])) := by
      rw [mergeStep_eq, applyRemovals_append_entities _ _ hsafe, List.append_assoc]
    have happ2 : ∀ x ∈ app ++ (if acceptedE az c then [c] else []),
        acceptedE az x = true := by
      intro x hx
      rcases List.mem_append.mp hx with hx | hx
      · exact happ x hx
      · by_cases hc : acceptedE az c = true
        · simp only [hc, if_true, List.mem_singleton] at hx
          exact hx ▸ hc
        · simp [hc] at hx
    rw [List.foldl_cons, hstep,
      foldl_mergeStep_closed hpos cs (applyRemovals (remKeys az c) azp) _ happ2]
    rw [List.flatMap_cons, applyRemovals_append_keys, List.filter_cons]
    by_cases hc : acceptedE az c = true <;> simp [hc, List.append_assoc]

theorem mergeEntities_closed {az : List PIIEntity} (hpos : ∀ a ∈ az, 0 < a.length)
    (cs : List PIIEntity) :
    mergeEntities az cs = List.insertionSort entLE
      (applyRemovals (cs.flatMap (remKeys az)) az ++ cs.filter (acceptedE az)) := by
  have h := foldl_mergeStep_closed hpos cs az [] (by simp)
  simp only [List.append_nil] at h
  rw [mergeEntities, h]

theorem scanAzure_count_ge {c a0 : PIIEntity} (hcat : c.category = "Occupation")
    (hacat : a0.category = "Organization") (hov : hasOverlapB c a0 = true) :
    ∀ {az : List PIIEntity},
      (∀ a ∈ az, hasOverlapB c a = true → a.category = "Organization") →
      az.countP (matchKeyB ⟨a0.offset, a0.length, "Organization"⟩)
        ≤ ((scanAzure c az).1).count (⟨a0.offset, a0.length, "Organization"⟩ : EKey)
  | [], _ => by simp [scanAzure]
  | a :: rest, hall => by
    have hrest := @scanAzure_count_ge c a0 hcat hacat hov rest
      (fun x hx hx2 => hall x (by simp [hx]) hx2)
    by_cases hova : hasOverlapB c a = true
    · have hcata : a.category = "Organization" := hall a (by simp) hova
      have hcond : (hasOverlapB c a && decide (c.category = "Occupation")
          && decide (a.category = "Organization")) = true := by simp [hova, hcat, hcata]
      simp only [scanAzure, hcond, if_true]
      by_cases hm : matchKeyB ⟨a0.offset, a0.length, "Organization"⟩ a = true
      · have hparts := hm
        simp only [matchKeyB, Bool.and_eq_true, decide_eq_true_eq] at hparts
        simp only [List.countP_cons, hm, if_true, List.count_cons]
        have hkeq : ((⟨a.offset, a.length, "Organization"⟩ : EKey)
            = (⟨a0.offset, a0.length, "Organization"⟩ : EKey)) := by
          simp [hparts.1.1, hparts.1.2]
        simp only [hkeq, beq_self_eq_true, if_true]
        omega
      · have hne : ¬ ((⟨a.offset, a.length, "Organization"⟩ : EKey)
            = (⟨a0.offset, a0.length, "Organization"⟩ : EKey)) := by
          intro he
          apply hm
          have h1 : a.offset = a0.offset := congrArg EKey.offset he
          have h2 : a.length = a0.length := congrArg EKey.length he
          simp [matchKeyB, h1, h2, hcata]
        simp only [List.countP_cons, hm, if_false, List.count_cons]
        simpa [hne] using hrest
    · have hovaf : hasOverlapB c a = false := by simpa using hova
      have hm : matchKeyB ⟨a0.offset, a0.length, "Organization"⟩ a = false := by
        by_contra hh
        have hmt := Bool.of_not_eq_false hh
        simp only [matchKeyB, Bool.and_eq_true, decide_eq_true_eq] at hmt
        rw [hasOverlapB_congr hmt.1.1 hmt.1.2, hov] at hovaf
        exact Bool.true_eq_false ▸ hovaf ▸ rfl
      simp only [scanAzure]
      rw [if_neg (by simp [hovaf]), if_neg (by simp [hovaf]), if_neg (by simp [hovaf]),
        if_neg (by simp [hovaf])]
      simpa [List.countP_cons, hm] using hrest

theorem count_le_flatMap {cs : List PIIEntity} {c : PIIEntity} (hc : c ∈ cs)
    (az : List PIIEntity) (k : EKey) :
    (remKeys az c).count k ≤ (cs.flatMap (remKeys az)).count k := by
  obtain ⟨l1, l2, rfl⟩ := List.append_of_mem hc
  rw [List.flatMap_append, List.flatMap_cons]
  simp only [List.count_append]
  omega

/-- Claim C1, counterexample: the priority rule does not always both remove the
overlapping `Organization` NER entity and admit the `Occupation` pattern
entity.  Here the pattern entity `cxOcc` overlaps both a `Person` and an
`Organization` NER entity; the `some` scan short-circuits at the `Person`
before reaching the `Organization`, so the `Organization` survives and the
pattern entity is dropped — the claimed output membership fails on both
counts. -/
theorem claim_C1_counterexample :
    cxOcc.category = "Occupation" ∧ cxOrg.category = "Organization"
      ∧ hasOverlapB cxOcc cxOrg = true
      ∧ cxOrg ∈ mergeEntities [cxPerson, cxOrg] [cxOcc]
      ∧ cxOcc ∉ mergeEntities [cxPerson, cxOrg] [cxOcc] := by decide

/-- Claim C1, amended: if a pattern entity of category `Occupation` overlaps an
NER entity of category `Organization` and every NER entity it overlaps has
category `Organization` (and entity lengths are positive, the documented data
invariant), then the merged list contains the pattern entity and does not
contain the overlapping `Organization` entity.  When the pattern entity also
overlaps an NER entity of another category this fails (see the
counterexample): the pattern entity is dropped and `Organization` entities
after the first such conflict are not removed. -/
theorem claim_C1_amended (az cs : List PIIEntity) (c a0 : PIIEntity)
    (hpos : ∀ a ∈ az, 0 < a.length)
    (hc : c ∈ cs) (hcat : c.category = "Occupation")
    (ha0 : a0 ∈ az) (hacat : a0.category = "Organization")
    (hov : hasOverlapB c a0 = true)
    (hall : ∀ a ∈ az, hasOverlapB c a = true → a.category = "Organization") :
    c ∈ mergeEntities az cs ∧ a0 ∉ mergeEntities az cs := by
  rw [mergeEntities_closed hpos]
  have hacc : acceptedE az c = true := by
    have := @scanAzure_not_stopped_of_rules c az
      (fun a ha hov2 => Or.inl ⟨hcat, hall a ha hov2⟩)
    simp [acceptedE, this]
  constructor
  · have hmemf : c ∈ cs.filter (acceptedE az) := List.mem_filter.mpr ⟨hc, hacc⟩
    exact ((List.perm_insertionSort entLE _).mem_iff).mpr
      (List.mem_append.mpr (Or.inr hmemf))
  · intro hmem
    have hmem2 := ((List.perm_insertionSort entLE _).mem_iff).mp hmem
    rcases List.mem_append.mp hmem2 with hmem3 | hmem3
    · have hcount0 : (applyRemovals (cs.flatMap (remKeys az)) az).countP
          (matchKeyB ⟨a0.offset, a0.length, "Organization"⟩) = 0 := by
        apply applyRemovals_countP_zero
        calc az.countP (matchKeyB ⟨a0.offset, a0.length, "Organization"⟩)
            ≤ (remKeys az c).count ⟨a0.offset, a0.length, "Organization"⟩ :=
              scanAzure_count_ge hcat hacat hov hall
          _ ≤ (cs.flatMap (remKeys az)).count ⟨a0.offset, a0.length, "Organization"⟩ :=
              count_le_flatMap hc az _
      have hpos2 : 0 < (applyRemovals (cs.flatMap (remKeys az)) az).countP
          (matchKeyB ⟨a0.offset, a0.length, "Organization"⟩) :=
        List.countP_pos_iff.mpr ⟨a0, hmem3, by simp [matchKeyB, hacat]⟩
      omega
    · have hacc0 : acceptedE az a0 = true := (List.mem_filter.mp hmem3).2
      have hself : hasOverlapB a0 a0 = true := by
        simp only [hasOverlapB, Bool.and_eq_true, decide_eq_true_eq]
        have := hpos a0 ha0
        omega
      have hstop : (scanAzure a0 az).2 = false := by simpa [acceptedE] using hacc0
      rcases scanAzure_not_stopped hstop a0 ha0 hself with ⟨h1, h2⟩ | ⟨h1, h2⟩ | ⟨h1, h2⟩ <;>
        rw [hacat] at h1 <;> simp at h1

/-- Witness for the amended claim C1 at a concrete input: a single
`Organization` NER entity overlapped only by an `Occupation` pattern entity is
replaced by it. -/
theorem claim_C1_witness :
    wOcc ∈ mergeEntities [wOrg] [wOcc] ∧ wOrg ∉ mergeEntities [wOrg] [wOcc] :=
  claim_C1_amended [wOrg] [wOcc] wOcc wOrg (by decide) (by decide) (by decide)
    (by decide) (by decide) (by decide) (by decide)

/-- Claim C2, counterexample: two overlapping pattern-detector entities both
survive the merge (pattern entities are deduplicated only against NER
entities, not against each other), refuting the no-same-source-overlap part of
the contract. -/
theorem claim_C2_counterexample :
    mergeEntities [] [cxDob1, cxDob2] = [cxDob1, cxDob2]
      ∧ hasOverlapB cxDob1 cxDob2 = true := by decide

/-- Claim C2, amended: the list returned by `mergeEntities` is sorted ascending
by offset, for every pair of input lists.  The second half of the original
claim — that no two entities originating from the same source list overlap in
the output — does not hold (see the counterexample): overlapping NER entities
are kept verbatim and overlapping pattern entities are each tested only
against the NER list. -/
theorem claim_C2_amended (azureEntities customEntities : List PIIEntity) :
    List.Sorted (fun a b => a.offset ≤ b.offset)
      (mergeEntities azureEntities customEntities) := by
  unfold mergeEntities
  exact List.sorted_insertionSort entLE _

/-- Claim C3, counterexample: permuting the pattern-entity input list can
change the output list.  Two distinct accepted pattern entities with equal
offsets keep their processing order through the stable sort, so swapping them
swaps them in the output. -/
theorem claim_C3_counterexample :
    List.Perm [cxDobB, cxDobA] [cxDobA, cxDobB]
      ∧ mergeEntities [] [cxDobB, cxDobA] ≠ mergeEntities [] [cxDobA, cxDobB] :=
  ⟨List.Perm.swap cxDobA cxDobB [], by decide⟩

/-- Claim C3, amended: under the documented data invariant that NER entity
lengths are positive, permuting the pattern-entity input list yields a merged
output that is a permutation of the original (same entities, possibly
different relative order among equal-offset pattern entities); output-list
equality fails (see the counterexample). -/
theorem claim_C3_amended (az : List PIIEntity) {cs cs' : List PIIEntity}
    (hpos : ∀ a ∈ az, 0 < a.length) (hp : cs.Perm cs') :
    (mergeEntities az cs).Perm (mergeEntities az cs') := by
  rw [mergeEntities_closed hpos cs, mergeEntities_closed hpos cs']
  have hkeys : (cs.flatMap (remKeys az)).Perm (cs'.flatMap (remKeys az)) :=
    hp.flatMap_right _
  rw [applyRemovals_perm_keys hkeys]
  exact (List.perm_insertionSort entLE _).trans
    (((List.Perm.refl _).append (hp.filter _)).trans
      (List.perm_insertionSort entLE _).symm)

/-- Witness for the amended claim C3 at a concrete input: swapping two pattern
entities yields a permutation of the original merged output. -/
theorem claim_C3_witness :
    (mergeEntities [cxOrg] [cxDobA, cxDobB]).Perm
      (mergeEntities [cxOrg] [cxDobB, cxDobA]) :=
  claim_C3_amended [cxOrg] (by decide) (List.Perm.swap cxDobB cxDobA [])

theorem flatMap_chunk_congr {f g : Nat → Except String (List PIIEntity)} :
    ∀ {l : List Nat}, (∀ x ∈ l, f x = g x) →
      l.flatMap (chunkContrib f) = l.flatMap (chunkContrib g)
  | [], _ => rfl
  | x :: xs, h => by
    rw [List.flatMap_cons, List.flatMap_cons, flatMap_chunk_congr
      (fun y hy => h y (by simp [hy]))]
    have hx := h x (by simp)
    rw [show chunkContrib f x = chunkContrib g x by rw [chunkContrib, chunkContrib, hx]]

theorem chunkOffsets_nodup (textLen : Nat) : (chunkOffsets textLen).Nodup := by
  unfold chunkOffsets
  refine (List.nodup_range _).map ?_
  intro i j h
  simp only [CHUNK_SIZE] at h
  omega

/-- Claim C4, counterexample: for a document short enough to be sent as a
single request (3000 ≤ 5000 characters), the failure of that one
PII-detection request makes `detectPII` raise an error instead of returning
partial results, so the document's processing does error. -/
theorem claim_C4_counterexample :
    detectPII cxFetchFail 3000 = Except.error "Azure PII Detection failed: boom" := rfl

/-- Claim C4, amended: for documents longer than the 5000-character chunk
threshold, the failure of a single PII-detection chunk request does not error:
the failed chunk's entities are omitted and all other chunks' entities are
still returned.  For documents sent as a single request (length ≤ 5000) a
request failure is rethrown and aborts that document's detection (see the
counterexample). -/
theorem claim_C4_amended (textLen o : Nat)
    (fetch fetchF : Nat → Except String (List PIIEntity)) (msg : String)
    (hlen : CHUNK_SIZE < textLen) (ho : o ∈ chunkOffsets textLen)
    (hagree : ∀ x, x ≠ o → fetchF x = fetch x)
    (hfail : fetchF o = Except.error msg) :
    ∃ pre post,
      detectPII fetch textLen = Except.ok (pre ++ chunkContrib fetch o ++ post)
        ∧ detectPII fetchF textLen = Except.ok (pre ++ post) := by
  obtain ⟨l1, l2, hsplit⟩ := List.append_of_mem ho
  have hnodup := chunkOffsets_nodup textLen
  rw [hsplit] at hnodup
  obtain ⟨hn1, hn2, hdisj⟩ := List.nodup_append.mp hnodup
  have ho1 : o ∉ l1 := fun hmem => hdisj hmem (by simp)
  have ho2 : o ∉ l2 := (List.nodup_cons.mp hn2).1
  have hif : ¬ textLen ≤ CHUNK_SIZE := by omega
  refine ⟨l1.flatMap (chunkContrib fetch), l2.flatMap (chunkContrib fetch), ?_, ?_⟩
  · simp only [detectPII, hif, if_false, hsplit, List.flatMap_append, List.flatMap_cons,
      List.append_assoc]
  · simp only [detectPII, hif, if_false, hsplit, List.flatMap_append, List.flatMap_cons,
      List.append_assoc]
    rw [@flatMap_chunk_congr fetchF fetch l1
        (fun x hx => hagree x (fun he => ho1 (he ▸ hx))),
      @flatMap_chunk_congr fetchF fetch l2
        (fun x hx => hagree x (fun he => ho2 (he ▸ hx))),
      show chunkContrib fetchF o = [] by rw [chunkContrib, hfail]]
    simp

/-- Witness for the amended claim C4 at a concrete input: a 7000-character
document has chunks at offsets 0 and 5000; failing the second chunk leaves
the first chunk's entities in the result without erroring. -/
theorem claim_C4_witness :
    ∃ pre post,
      detectPII wFetch 7000 = Except.ok (pre ++ chunkContrib wFetch 5000 ++ post)
        ∧ detectPII wFetchDrop 7000 = Except.ok (pre ++ post) :=
  claim_C4_amended 7000 5000 wFetch wFetchDrop "boom" (by decide) (by decide)
    (fun x hx => by simp [wFetchDrop, wFetch, hx]) rfl

/-- Claim C5, counterexample: `normalizeText` does not map all three of
`"Musterstraße"`, `"Musterstrasse"` and `"Muster Str."` to one and the same
string: the abbreviation expansion keeps the token boundary, so
`"Muster Str."` yields `"muster strasse"` (with a space) while
`"Musterstraße"` yields `"musterstrasse"`. -/
theorem claim_C5_counterexample :
    normalizeText "Muster Str." = "muster strasse"
      ∧ normalizeText "Musterstraße" = "musterstrasse"
      ∧ normalizeText "Muster Str." ≠ normalizeText "Musterstraße" := by decide

/-- Claim C5, amended: `normalizeText "Musterstraße" = normalizeText
"Musterstrasse"` (the ß fold makes the two spellings agree), but
`"Muster Str."` normalizes to `"muster strasse"`, which differs from
`"musterstrasse"` by the internal space: whitespace runs are collapsed to a
single space, not removed. -/
theorem claim_C5_amended :
    normalizeText "Musterstraße" = normalizeText "Musterstrasse"
      ∧ normalizeText "Muster Str." = "muster strasse"
      ∧ normalizeText "Muster Str." ≠ normalizeText "Musterstrasse" := by decide

/-- Claim C6, counterexample: for a word touching the page origin the left
padding is clamped at zero rather than subtracted: the emitted x is 0, while
the claimed unconditional expansion by 0.02 on all four sides would give
`(0 − 0.02) · 72 = −1.44`. -/
theorem claim_C6_counterexample :
    (convertEntitiesToRedactionCoordinates [cxEnt6] [cxPage6]).map (fun r => r.x) = [0]
      ∧ ((0:ℚ) - 1/50) * 72 ≠ 0 := by decide

/-- Claim C6, amended: for every word selected for an entity (half-open span
overlap), the conversion emits the word polygon's axis-aligned bounding box
expanded by 0.02 page units, except that the left/top padding subtraction is
clamped at zero, with all four components multiplied by 72 exactly when the
owning page's unit is `"inch"` and left unconverted otherwise. -/
theorem claim_C6_amended (entities : List PIIEntity) (pages : List DocIntelPage)
    (e : PIIEntity) (item : DocIntelWord × Nat)
    (he : e ∈ entities) (hitem : item ∈ allWordsSorted pages)
    (hov1 : item.1.span.offset < e.offset + e.length)
    (hov2 : item.1.span.offset + item.1.span.length > e.offset) :
    (⟨item.2,
      (if (pages.getD item.2 defaultPage).unit = "inch" then (72:ℚ) else 1)
        * max 0 (min4 (polyAt item.1 0) (polyAt item.1 2) (polyAt item.1 4)
            (polyAt item.1 6) - 1/50),
      (if (pages.getD item.2 defaultPage).unit = "inch" then (72:ℚ) else 1)
        * max 0 (min4 (polyAt item.1 1) (polyAt item.1 3) (polyAt item.1 5)
            (polyAt item.1 7) - 1/50),
      (if (pages.getD item.2 defaultPage).unit = "inch" then (72:ℚ) else 1)
        * ((max4 (polyAt item.1 0) (polyAt item.1 2) (polyAt item.1 4)
            (polyAt item.1 6) + 1/50)
          - max 0 (min4 (polyAt item.1 0) (polyAt item.1 2) (polyAt item.1 4)
            (polyAt item.1 6) - 1/50)),
      (if (pages.getD item.2 defaultPage).unit = "inch" then (72:ℚ) else 1)
        * ((max4 (polyAt item.1 1) (polyAt item.1 3) (polyAt item.1 5)
            (polyAt item.1 7) + 1/50)
          - max 0 (min4 (polyAt item.1 1) (polyAt item.1 3) (polyAt item.1 5)
            (polyAt item.1 7) - 1/50)),
      some e.text, some e.category⟩ : RedactionCoordinate)
      ∈ convertEntitiesToRedactionCoordinates entities pages := by
  unfold convertEntitiesToRedactionCoordinates
  apply List.mem_flatMap.mpr
  refine ⟨e, he, ?_⟩
  apply List.mem_map.mpr
  exact ⟨item, List.mem_filter.mpr ⟨hitem, by simp [hov1, hov2]⟩, rfl⟩

/-- Witness for the amended claim C6: the claim's own example — the unit
square at inch-coordinates (1,1)–(2,2) maps to `x = y = 72 − 0.02·72` and
`width = height = 72 + 2·0.02·72`. -/
theorem claim_C6_witness :
    (⟨(wWord6, 0).2,
      (if ([wPage6].getD (wWord6, 0).2 defaultPage).unit = "inch" then (72:ℚ) else 1)
        * max 0 (min4 (polyAt (wWord6, 0).1 0) (polyAt (wWord6, 0).1 2)
            (polyAt (wWord6, 0).1 4) (polyAt (wWord6, 0).1 6) - 1/50),
      (if ([wPage6].getD (wWord6, 0).2 defaultPage).unit = "inch" then (72:ℚ) else 1)
        * max 0 (min4 (polyAt (wWord6, 0).1 1) (polyAt (wWord6, 0).1 3)
            (polyAt (wWord6, 0).1 5) (polyAt (wWord6, 0).1 7) - 1/50),
      (if ([wPage6].getD (wWord6, 0).2 defaultPage).unit = "inch" then (72:ℚ) else 1)
        * ((max4 (polyAt (wWord6, 0).1 0) (polyAt (wWord6, 0).1 2)
            (polyAt (wWord6, 0).1 4) (polyAt (wWord6, 0).1 6) + 1/50)
          - max 0 (min4 (polyAt (wWord6, 0).1 0) (polyAt (wWord6, 0).1 2)
            (polyAt (wWord6, 0).1 4) (polyAt (wWord6, 0).1 6) - 1/50)),
      (if ([wPage6].getD (wWord6, 0).2 defaultPage).unit = "inch" then (72:ℚ) else 1)
        * ((max4 (polyAt (wWord6, 0).1 1) (polyAt (wWord6, 0).1 3)
            (polyAt (wWord6, 0).1 5) (polyAt (wWord6, 0).1 7) + 1/50)
          - max 0 (min4 (polyAt (wWord6, 0).1 1) (polyAt (wWord6, 0).1 3)
            (polyAt (wWord6, 0).1 5) (polyAt (wWord6, 0).1 7) - 1/50)),
      some wEnt6.text, some wEnt6.category⟩ : RedactionCoordinate)
      ∈ convertEntitiesToRedactionCoordinates [wEnt6] [wPage6]
    ∧ ((if ([wPage6].getD (wWord6, 0).2 defaultPage).unit = "inch" then (72:ℚ) else 1)
          * max 0 (min4 (polyAt (wWord6, 0).1 0) (polyAt (wWord6, 0).1 2)
              (polyAt (wWord6, 0).1 4) (polyAt (wWord6, 0).1 6) - 1/50)
        = 72 - (1/50) * 72)
    ∧ ((if ([wPage6].getD (wWord6, 0).2 defaultPage).unit = "inch" then (72:ℚ) else 1)
          * ((max4 (polyAt (wWord6, 0).1 0) (polyAt (wWord6, 0).1 2)
              (polyAt (wWord6, 0).1 4) (polyAt (wWord6, 0).1 6) + 1/50)
            - max 0 (min4 (polyAt (wWord6, 0).1 0) (polyAt (wWord6, 0).1 2)
              (polyAt (wWord6, 0).1 4) (polyAt (wWord6, 0).1 6) - 1/50))
        = 72 + 2 * ((1/50) * 72)) :=
  ⟨claim_C6_amended [wEnt6] [wPage6] wEnt6 (wWord6, 0) (by decide) (by decide)
      (by decide) (by decide),
    by decide, by decide⟩

theorem splitRunsAux_nl2sp :
    ∀ (l acc : List Char),
      splitRunsAux (fun c => !isWsJS c) acc (l.map nl2sp)
        = splitRunsAux (fun c => !isWsJS c) acc l
  | [], _ => rfl
  | c :: rest, acc => by
    by_cases hc : isWsJS c = true
    · have h1 : isWsJS (nl2sp c) = true := by
        unfold nl2sp
        split_ifs with h
        · rfl
        · exact hc
      simp only [List.map_cons, splitRunsAux, h1, hc, Bool.not_true, Bool.false_eq_true,
        if_false]
      by_cases ha : acc.isEmpty <;> simp [ha, splitRunsAux_nl2sp rest]
    · have hnl : nl2sp c = c := by
        unfold nl2sp
        split_ifs with h
        · exfalso
          apply hc
          rcases (by simpa using h : c = '\n' ∨ c = '\r') with rfl | rfl <;> rfl
        · rfl
      have hcf : isWsJS c = false := by simpa using hc
      simp only [List.map_cons, hnl, splitRunsAux, hcf, Bool.not_false, if_true]
      exact splitRunsAux_nl2sp rest (c :: acc)

theorem splitRunsAux_allWs :
    ∀ {w : List Char}, (∀ c ∈ w, isWsJS c = true) → ∀ (acc : List Char),
      splitRunsAux (fun c => !isWsJS c) acc w
        = if acc.isEmpty then [] else [acc.reverse]
  | [], _, acc => rfl
  | c :: w, hw, acc => by
    have ihnil : splitRunsAux (fun c => !isWsJS c) [] w = [] := by
      simpa using splitRunsAux_allWs (fun x hx => hw x (List.mem_cons_of_mem _ hx)) []
    have hc : isWsJS c = true := hw c (List.mem_cons_self _ _)
    simp only [splitRunsAux, hc, Bool.not_true, Bool.false_eq_true, if_false]
    by_cases ha : acc.isEmpty <;> simp [ha, ihnil]

theorem splitRunsAux_append_ws {w : List Char} (hw : ∀ c ∈ w, isWsJS c = true) :
    ∀ (l acc : List Char),
      splitRunsAux (fun c => !isWsJS c) acc (l ++ w)
        = splitRunsAux (fun c => !isWsJS c) acc l
  | [], acc => by
    rw [List.nil_append, splitRunsAux_allWs hw acc]
    rfl
  | c :: l, acc => by
    by_cases hc : isWsJS c = true
    · simp only [List.cons_append, splitRunsAux, hc, Bool.not_true, Bool.false_eq_true,
        if_false]
      by_cases ha : acc.isEmpty <;> simp [ha, splitRunsAux_append_ws hw l]
    · have hcf : isWsJS c = false := by simpa using hc
      simp only [List.cons_append, splitRunsAux, hcf, Bool.not_false, if_true]
      exact splitRunsAux_append_ws hw l (c :: acc)

theorem splitRunsAux_dropWhile :
    ∀ (l : List Char),
      splitRunsAux (fun c => !isWsJS c) [] (l.dropWhile isWsJS)
        = splitRunsAux (fun c => !isWsJS c) [] l
  | [] => rfl
  | c :: l => by
    by_cases hc : isWsJS c = true
    · rw [List.dropWhile_cons, if_pos hc, splitRunsAux_dropWhile l]
      simp [splitRunsAux, hc]
    · rw [List.dropWhile_cons, if_neg (by simp [hc])]

theorem wsTokens_trimJS (l : List Char) : wsTokens (trimJS l) = wsTokens l := by
  unfold wsTokens splitRuns trimJS
  have h0 : (l.dropWhile isWsJS).reverse.takeWhile isWsJS
      ++ (l.dropWhile isWsJS).reverse.dropWhile isWsJS = (l.dropWhile isWsJS).reverse :=
    List.takeWhile_append_dropWhile ..
  have hdecomp : l.dropWhile isWsJS
      = ((l.dropWhile isWsJS).reverse.dropWhile isWsJS).reverse
        ++ ((l.dropWhile isWsJS).reverse.takeWhile isWsJS).reverse := by
    calc l.dropWhile isWsJS
        = (l.dropWhile isWsJS).reverse.reverse := (List.reverse_reverse _).symm
      _ = ((l.dropWhile isWsJS).reverse.takeWhile isWsJS
            ++ (l.dropWhile isWsJS).reverse.dropWhile isWsJS).reverse := by rw [h0]
      _ = ((l.dropWhile isWsJS).reverse.dropWhile isWsJS).reverse
            ++ ((l.dropWhile isWsJS).reverse.takeWhile isWsJS).reverse := by
          rw [List.reverse_append]
  have hws : ∀ c ∈ ((l.dropWhile isWsJS).reverse.takeWhile isWsJS).reverse,
      isWsJS c = true := by
    intro c hc
    exact List.mem_takeWhile_imp (List.mem_reverse.mp hc)
  conv_rhs => rw [← splitRunsAux_dropWhile l, hdecomp, splitRunsAux_append_ws hws]

theorem wsTokens_nl2sp (l : List Char) : wsTokens (l.map nl2sp) = wsTokens l := by
  unfold wsTokens splitRuns
  exact splitRunsAux_nl2sp l []

theorem mem_splitRunsAux_ne_nil {p : Char → Bool} :
    ∀ {l acc t : List Char}, t ∈ splitRunsAux p acc l → t ≠ []
  | [], acc, t, h => by
    by_cases ha : acc.isEmpty
    · simp [splitRunsAux, ha] at h
    · simp [splitRunsAux, ha] at h
      subst h
      intro hh
      exact ha (by simp [List.reverse_eq_nil_iff.mp hh])
  | c :: l, acc, t, h => by
    by_cases hp : p c = true
    · simp only [splitRunsAux, hp, if_true] at h
      exact mem_splitRunsAux_ne_nil h
    · by_cases ha : acc.isEmpty
      · simp [splitRunsAux, hp, ha] at h
        exact mem_splitRunsAux_ne_nil h
      · simp [splitRunsAux, hp, ha] at h
        rcases h with rfl | h
        · intro hh
          exact ha (by simp [List.reverse_eq_nil_iff.mp hh])
        · exact mem_splitRunsAux_ne_nil h

theorem mem_wsTokens_ne_nil {l t : List Char} (h : t ∈ wsTokens l) : t ≠ [] :=
  mem_splitRunsAux_ne_nil h

theorem isDigit_toNat {c : Char} (h : c.isDigit = true) :
    48 ≤ c.toNat ∧ c.toNat ≤ 57 := by
  simp only [Char.isDigit, Bool.and_eq_true, decide_eq_true_eq] at h
  exact ⟨h.1, h.2⟩

theorem isDigit_not_ws {c : Char} (h : c.isDigit = true) : isWsJS c = false := by
  by_contra hh
  have hws := Bool.of_not_eq_false hh
  simp only [isWsJS, Bool.or_eq_true, decide_eq_true_eq] at hws
  rcases hws with ((((h1 | h1) | h1) | h1) | h1) | h1 <;> subst h1 <;>
    exact absurd h (by decide)

theorem takeWhile_of_all {p : Char → Bool} :
    ∀ {l : List Char}, (∀ c ∈ l, p c = true) → l.takeWhile p = l
  | [], _ => rfl
  | c :: rest, h => by
    rw [List.takeWhile_cons, if_pos (h c (by simp)),
      takeWhile_of_all (fun x hx => h x (by simp [hx]))]

theorem jsParseInt_digits :
    ∀ {t : List Char}, t ≠ [] → (∀ c ∈ t, c.isDigit = true) →
      jsParseInt t = some (digitsVal t)
  | [], hne, _ => absurd rfl hne
  | c :: rest, _, hall => by
    have hc : c.isDigit = true := hall c (by simp)
    have hdrop : (c :: rest).dropWhile isWsJS = c :: rest := by
      rw [List.dropWhile_cons, if_neg (by simp [isDigit_not_ws hc])]
    have htake : (c :: rest).takeWhile Char.isDigit = c :: rest := takeWhile_of_all hall
    unfold jsParseInt
    rw [hdrop]
    split
    · rename_i heq
      injection heq with h1 _
      exact absurd h1.symm (fun hh => by subst hh; exact absurd hc (by decide))
    · rename_i heq
      injection heq with h1 _
      exact absurd h1.symm (fun hh => by subst hh; exact absurd hc (by decide))
    · rw [htake]
      simp

theorem digitsVal_foldl_nonneg :
    ∀ (t : List Char) (acc : Int), 0 ≤ acc → (∀ c ∈ t, c.isDigit = true) →
      0 ≤ t.foldl (fun acc c => acc * 10 + ((c.toNat : Int) - 48)) acc
  | [], _, h, _ => h
  | c :: rest, acc, h, hall => by
    rw [List.foldl_cons]
    apply digitsVal_foldl_nonneg rest _ ?_ (fun x hx => hall x (by simp [hx]))
    have := (isDigit_toNat (hall c (by simp))).1
    have hcast : (48 : Int) ≤ (c.toNat : Int) := by exact_mod_cast this
    nlinarith

theorem digitsVal_nonneg {t : List Char} (hall : ∀ c ∈ t, c.isDigit = true) :
    0 ≤ digitsVal t :=
  digitsVal_foldl_nonneg t 0 le_rfl hall

/-- Claim C9: the entity filter drops every entity whose text splits into at
least three whitespace tokens that are all digit strings with value at most
300 and whose values are strictly increasing or evenly spaced at a first
difference of 25 or 50 — for every category and every (optional) dynamic
exclude address; and the entity with text `"17 203 4"` is retained when no
other exclusion rule matches (here: category `Person`, no exclude
address). -/
theorem claim_C9 :
    (∀ (excludeAddress : Option String) (entities : List PIIEntity) (e : PIIEntity),
      3 ≤ (wsTokens e.text.data).length →
      (∀ t ∈ wsTokens e.text.data, (∀ c ∈ t, c.isDigit = true) ∧ digitsVal t ≤ 300) →
      (chainIncr ((wsTokens e.text.data).map digitsVal) = true
        ∨ ((firstDiffOf ((wsTokens e.text.data).map digitsVal) = 25
              ∨ firstDiffOf ((wsTokens e.text.data).map digitsVal) = 50)
            ∧ chainDiff (firstDiffOf ((wsTokens e.text.data).map digitsVal))
                ((wsTokens e.text.data).map digitsVal) = true)) →
      e ∉ filteredEntities excludeAddress entities)
    ∧ filterKeep none e17 = true ∧ e17 ∈ filteredEntities none [e17] := by
  refine ⟨?_, by decide, by decide⟩
  intro excludeAddress entities e hlen hall hseq hmem
  have hkeep : filterKeep excludeAddress e = true :=
    (List.mem_filter.mp hmem).2
  have htok : wsTokens (trimJS (e.text.data.map nl2sp)) = wsTokens e.text.data := by
    rw [wsTokens_trimJS, wsTokens_nl2sp]
  have hparse : ∀ t ∈ wsTokens e.text.data, jsParseInt t = some (digitsVal t) :=
    fun t ht => jsParseInt_digits (mem_wsTokens_ne_nil ht) (hall t ht).1
  have h1 : decide (3 ≤ (wsTokens e.text.data).length) = true := by
    simpa using hlen
  have h2 : (wsTokens e.text.data).all (fun part =>
      match jsParseInt part with
      | some v => decide (0 ≤ v) && decide (v ≤ 300)
      | none => false) = true := by
    apply List.all_eq_true.mpr
    intro t ht
    rw [hparse t ht]
    have := digitsVal_nonneg (hall t ht).1
    have := (hall t ht).2
    simp_all
  have h3 : (wsTokens e.text.data).map (fun p => (jsParseInt p).getD 0)
      = (wsTokens e.text.data).map digitsVal := by
    apply List.map_congr_left
    intro t ht
    rw [hparse t ht]
    rfl
  have hnums : numsOf (trimJS (e.text.data.map nl2sp))
      = (wsTokens e.text.data).map digitsVal := by
    unfold numsOf
    rw [htok]
    exact h3
  have henergy : energySeq (trimJS (e.text.data.map nl2sp)) = true := by
    unfold energySeq
    rw [htok, hnums, h1, h2]
    rcases hseq with hinc | ⟨hfd, hcd⟩
    · simp [hinc]
    · rcases hfd with hfd | hfd <;> (rw [hfd] at hcd; simp [hfd, hcd])
  have hfalse : filterKeep excludeAddress e = false := by
    unfold filterKeep
    by_cases hw : isWhitelisted e.text = true
    · simp [hw]
    · have hwf : isWhitelisted e.text = false := by simpa using hw
      by_cases horg : (e.category == "Organization"
          && orgNoise (trimJS (e.text.data.map nl2sp))) = true <;>
        simp [hwf, horg, henergy]
  rw [hkeep] at hfalse
  exact Bool.true_eq_false ▸ hfalse ▸ rfl

/-- Witness for claim C9 at the claim's dropped example: the entity with text
`"25 50 75 100"` is removed by the filter. -/
theorem claim_C9_witness : e25 ∉ filteredEntities none [e25] :=
  claim_C9.1 none [e25] e25 (by decide) (by decide) (Or.inl (by decide))

/-- Claim C8: the code diverges from the stated suppression condition on the
candidate `"251\n2345 678 9012"`.  The claim says it is emitted (it has a
4-digit group, a token parsing above 300, and 14 ≥ 10 digits), but the code
drops it: the regex `^\d{1,3}(\d{1,3})*$` that is meant to check "all digit
groups are 1–3 digits" matches every nonempty all-digit string, so
`isLikelyEnergyScale` fires on any newline-containing candidate whose digits
start with a scale anchor. -/
theorem claim_C8 :
    phoneCandidateEmitted c8Fail = false ∧ c8ClaimEmit c8Fail = true := by decide

/-- Claim C7, amended: a handwritten span is accepted by the primary pass
exactly when its trimmed text passes the length filter with threshold 2 under
the textual label signal alone (3 otherwise — spatial proximity does not
lower the threshold, because the length filter runs before the spatial check
and the later re-check can never skip), it matches no form-field pattern,
some OCR word overlaps its span, and it is near a label by either signal or
lies in the bottom 25 % of the page with length ≥ 5. -/
theorem claim_C7_amended (content : List Char) (pages : List DocIntelPage) (span : SpanT) :
    (processSpan content pages span).isSome = c7Accept content pages span := by
  unfold processSpan c7Accept
  cases hm : matchingWordsOf pages span with
  | nil => split_ifs <;> simp
  | cons mw0 rest =>
    by_cases htn : textualNearB content span = true <;>
      by_cases hsp : spatialNearB pages mw0 = true <;>
        by_cases hff : formFieldAny (sigText content span) = true <;>
          simp only [htn, hsp, hff, Bool.not_true, Bool.not_false, Bool.false_and,
            Bool.true_and, Bool.and_false, Bool.and_true, Bool.true_or, Bool.false_or,
            Bool.or_true, Bool.or_false, Bool.not_false, if_true, if_false] <;>
        split_ifs <;> simp_all <;> omega

/-- Claim C7, counterexample: the two-character handwritten span `"Ab"` of
`cxDoc7` is spatially within 2.0 × 4.0 units of the label word
`"Unterschrift"` but more than 150 characters from any textual label, so the
claim's combined-signal threshold of 2 accepts it — yet the code's length
filter uses the textual signal only and drops the span, and the primary pass
emits nothing for the document. -/
theorem claim_C7_counterexample :
    claimC7Accept cxC7content.data [cxC7page] cxC7span = true
      ∧ processSpan cxC7content.data [cxC7page] cxC7span = none
      ∧ signaturesPrimary cxDoc7 = [] := by decide

theorem le_foldl_max : ∀ (t : List ℚ) (a : ℚ), a ≤ t.foldl max a
  | [], _ => le_refl _
  | b :: t, a => le_trans (le_max_left a b) (le_foldl_max t (max a b))

theorem foldl_min_le : ∀ (t : List ℚ) (a : ℚ), t.foldl min a ≤ a
  | [], _ => le_refl _
  | b :: t, a => le_trans (foldl_min_le t (min a b)) (min_le_left a b)

theorem qMinL_le_qMaxL {l : List ℚ} (h : l ≠ []) : qMinL l ≤ qMaxL l := by
  cases l with
  | nil => exact absurd rfl h
  | cons a t => exact le_trans (foldl_min_le t a) (le_foldl_max t a)

theorem qMaxL_nonneg {l : List ℚ} (h : l ≠ []) (hall : ∀ q ∈ l, 0 ≤ q) :
    0 ≤ qMaxL l := by
  cases l with
  | nil => exact absurd rfl h
  | cons a t => exact le_trans (hall a (by simp)) (le_foldl_max t a)

theorem mem_evens : ∀ {l : List ℚ} {x : ℚ}, x ∈ evens l → x ∈ l
  | [], _, h => absurd h (List.not_mem_nil _)
  | [a], _, h => by simpa [evens] using h
  | a :: b :: r, x, h => by
    rcases List.mem_cons.mp (by simpa [evens] using h) with rfl | h'
    · simp
    · simp [List.mem_cons.mpr (Or.inr (List.mem_cons.mpr (Or.inr (mem_evens h'))))]

theorem mem_odds {l : List ℚ} {x : ℚ} (h : x ∈ odds l) : x ∈ l := by
  cases l with
  | nil => exact absurd h (List.not_mem_nil _)
  | cons a t => exact List.mem_cons.mpr (Or.inr (mem_evens h))

theorem evens_ne_nil : ∀ {l : List ℚ}, l ≠ [] → evens l ≠ []
  | [], h, _ => h rfl
  | [a], _, h => by simp [evens] at h
  | a :: b :: r, _, h => by simp [evens] at h

theorem odds_ne_nil {l : List ℚ} (h : 2 ≤ l.length) : odds l ≠ [] := by
  match l, h with
  | a :: b :: r, _ => exact fun hh => evens_ne_nil (List.cons_ne_nil b r) hh

theorem mem_sigXs {q : ℚ} {mw0 : MWord} {rest : List MWord}
    (h : q ∈ sigXs mw0 rest) : ∃ mw ∈ mw0 :: rest, q ∈ mw.word.polygon := by
  obtain ⟨mw, hmw, hq⟩ := List.mem_flatMap.mp h
  exact ⟨mw, hmw, mem_evens hq⟩

theorem mem_sigYs {q : ℚ} {mw0 : MWord} {rest : List MWord}
    (h : q ∈ sigYs mw0 rest) : ∃ mw ∈ mw0 :: rest, q ∈ mw.word.polygon := by
  obtain ⟨mw, hmw, hq⟩ := List.mem_flatMap.mp h
  exact ⟨mw, hmw, mem_odds hq⟩

theorem sigXs_ne_nil {mw0 : MWord} {rest : List MWord}
    (h : mw0.word.polygon ≠ []) : sigXs mw0 rest ≠ [] := by
  unfold sigXs
  rw [List.flatMap_cons]
  exact fun hh => evens_ne_nil h (List.append_eq_nil.mp hh).1

theorem sigYs_ne_nil {mw0 : MWord} {rest : List MWord}
    (h : 2 ≤ mw0.word.polygon.length) : sigYs mw0 rest ≠ [] := by
  unfold sigYs
  rw [List.flatMap_cons]
  exact fun hh => odds_ne_nil h (List.append_eq_nil.mp hh).1

theorem sigF_pos (mw0 : MWord) : 0 < sigF mw0 := by
  unfold sigF; split_ifs <;> norm_num

theorem SIG_PAD_pos : (0 : ℚ) < SIG_PAD := by norm_num [SIG_PAD]

theorem sigRegion_pos (t : List Char) (mw0 : MWord) (rest : List MWord)
    (hx : sigXs mw0 rest ≠ []) (hy : sigYs mw0 rest ≠ [])
    (hxnn : ∀ q ∈ sigXs mw0 rest, 0 ≤ q) (hynn : ∀ q ∈ sigYs mw0 rest, 0 ≤ q) :
    0 ≤ (mkSigRegion t mw0 rest).x ∧ 0 ≤ (mkSigRegion t mw0 rest).y
      ∧ 0 < (mkSigRegion t mw0 rest).width ∧ 0 < (mkSigRegion t mw0 rest).height := by
  have hf := sigF_pos mw0
  have hp := SIG_PAD_pos
  unfold mkSigRegion
  refine ⟨mul_nonneg hf.le (le_max_left 0 _), mul_nonneg hf.le (le_max_left 0 _), ?_, ?_⟩
  · apply mul_pos hf
    have h1 : max 0 (qMinL (sigXs mw0 rest) - SIG_PAD)
        < qMaxL (sigXs mw0 rest) + SIG_PAD := by
      apply max_lt
      · have := qMaxL_nonneg hx hxnn; linarith
      · have := qMinL_le_qMaxL hx; linarith
    linarith
  · apply mul_pos hf
    have h1 : max 0 (qMinL (sigYs mw0 rest) - SIG_PAD)
        < qMaxL (sigYs mw0 rest) + SIG_PAD := by
      apply max_lt
      · have := qMaxL_nonneg hy hynn; linarith
      · have := qMinL_le_qMaxL hy; linarith
    linarith

theorem processSpan_some_shape {content : List Char} {pages : List DocIntelPage}
    {span : SpanT} {r : RedactionCoordinate}
    (h : processSpan content pages span = some r) :
    ∃ mw0 rest, matchingWordsOf pages span = mw0 :: rest
      ∧ r = mkSigRegion (sigText content span) mw0 rest := by
  unfold processSpan at h
  by_cases hA : (sigText content span).length < (if textualNearB content span then 2 else 3)
  · rw [if_pos hA] at h
    exact absurd h (by simp)
  · rw [if_neg hA] at h
    by_cases hB : formFieldAny (sigText content span) = true
    · rw [if_pos hB] at h
      exact absurd h (by simp)
    · rw [if_neg hB] at h
      split at h
      next => exact absurd h (by simp)
      next mw0 rest heq =>
        split_ifs at h
        all_goals exact ⟨mw0, rest, heq, (Option.some.inj h).symm⟩

theorem matchingWordsOf_word_mem {pages : List DocIntelPage} {span : SpanT} {mw : MWord}
    (h : mw ∈ matchingWordsOf pages span) : ∃ p ∈ pages, mw.word ∈ p.words := by
  unfold matchingWordsOf at h
  obtain ⟨pi, hpi, hmem⟩ := List.mem_flatMap.mp h
  obtain ⟨w, hw, rfl⟩ := List.mem_map.mp hmem
  refine ⟨pi.2, ?_, (List.mem_filter.mp hw).1⟩
  have h2 : pi.2 ∈ pages.enum.map Prod.snd := List.mem_map_of_mem _ hpi
  rwa [List.enum_map_snd] at h2

theorem mem_allWordsSorted {pages : List DocIntelPage} {item : DocIntelWord × Nat}
    (h : item ∈ allWordsSorted pages) : ∃ p ∈ pages, item.1 ∈ p.words := by
  unfold allWordsSorted at h
  rw [(List.perm_insertionSort wordLE _).mem_iff] at h
  obtain ⟨pi, hpi, hmem⟩ := List.mem_flatMap.mp h
  obtain ⟨w, hw, heq⟩ := List.mem_map.mp hmem
  refine ⟨pi.2, ?_, ?_⟩
  · have h2 : pi.2 ∈ pages.enum.map Prod.snd := List.mem_map_of_mem _ hpi
    rwa [List.enum_map_snd] at h2
  · rw [← heq]; exact hw

theorem polyAt_nonneg {w : DocIntelWord} (h : ∀ q ∈ w.polygon, 0 ≤ q) (i : Nat) :
    0 ≤ polyAt w i := by
  unfold polyAt
  rcases lt_or_le i w.polygon.length with hi | hi
  · rw [List.getD_eq_getElem _ _ hi]
    exact h _ (List.getElem_mem hi)
  · rw [List.getD_eq_default _ _ hi]

theorem min4_le_first (a b c d : ℚ) : min4 a b c d ≤ a :=
  le_trans (min_le_left _ d) (le_trans (min_le_left _ c) (min_le_left a b))

theorem first_le_max4 (a b c d : ℚ) : a ≤ max4 a b c d :=
  le_trans (le_trans (le_max_left a b) (le_max_left _ c)) (le_max_left _ d)

theorem PADDING_INCH_pos : (0 : ℚ) < PADDING_INCH := by norm_num [PADDING_INCH]

theorem convRegion_pos (pages : List DocIntelPage) (entity : PIIEntity)
    (item : DocIntelWord × Nat) (hnn : ∀ q ∈ item.1.polygon, 0 ≤ q) :
    0 ≤ (convRegion pages entity item).x ∧ 0 ≤ (convRegion pages entity item).y
      ∧ 0 < (convRegion pages entity item).width
      ∧ 0 < (convRegion pages entity item).height := by
  have hp := PADDING_INCH_pos
  have h0 := polyAt_nonneg hnn 0
  have h1 := polyAt_nonneg hnn 1
  have hminx := min4_le_first (polyAt item.1 0) (polyAt item.1 2) (polyAt item.1 4)
    (polyAt item.1 6)
  have hmaxx := first_le_max4 (polyAt item.1 0) (polyAt item.1 2) (polyAt item.1 4)
    (polyAt item.1 6)
  have hminy := min4_le_first (polyAt item.1 1) (polyAt item.1 3) (polyAt item.1 5)
    (polyAt item.1 7)
  have hmaxy := first_le_max4 (polyAt item.1 1) (polyAt item.1 3) (polyAt item.1 5)
    (polyAt item.1 7)
  unfold convRegion
  have hf : (0 : ℚ) < if (pages.getD item.2 defaultPage).unit = "inch" then 72 else 1 := by
    split_ifs <;> norm_num
  refine ⟨mul_nonneg hf.le (le_max_left 0 _), mul_nonneg hf.le (le_max_left 0 _), ?_, ?_⟩
  · apply mul_pos hf
    have hlt : max 0 (min4 (polyAt item.1 0) (polyAt item.1 2) (polyAt item.1 4)
          (polyAt item.1 6) - PADDING_INCH)
        < max4 (polyAt item.1 0) (polyAt item.1 2) (polyAt item.1 4) (polyAt item.1 6)
          + PADDING_INCH := by
      apply max_lt <;> linarith
    linarith
  · apply mul_pos hf
    have hlt : max 0 (min4 (polyAt item.1 1) (polyAt item.1 3) (polyAt item.1 5)
          (polyAt item.1 7) - PADDING_INCH)
        < max4 (polyAt item.1 1) (polyAt item.1 3) (polyAt item.1 5) (polyAt item.1 7)
          + PADDING_INCH := by
      apply max_lt <;> linarith
    linarith

/-- Claim C10: with well-formed word polygons (8 entries, all nonnegative),
every region emitted by `convertEntitiesToRedactionCoordinates` and every
region emitted by the primary signature pass has `x ≥ 0` and `y ≥ 0` — the
left/top padding subtraction is clamped at zero — and strictly positive
width and height. -/
theorem claim_C10 (entities : List PIIEntity) (doc : AnalyzeResult)
    (hnn : ∀ p ∈ doc.pages, ∀ w ∈ p.words, ∀ q ∈ w.polygon, 0 ≤ q)
    (hlen : ∀ p ∈ doc.pages, ∀ w ∈ p.words, w.polygon.length = 8) :
    (∀ r ∈ convertEntitiesToRedactionCoordinates entities doc.pages,
        0 ≤ r.x ∧ 0 ≤ r.y ∧ 0 < r.width ∧ 0 < r.height)
      ∧ (∀ r ∈ signaturesPrimary doc,
        0 ≤ r.x ∧ 0 ≤ r.y ∧ 0 < r.width ∧ 0 < r.height) := by
  constructor
  · intro r hr
    unfold convertEntitiesToRedactionCoordinates at hr
    obtain ⟨entity, he, hr⟩ := List.mem_flatMap.mp hr
    obtain ⟨item, hitem, rfl⟩ := List.mem_map.mp hr
    obtain ⟨p, hp, hwp⟩ := mem_allWordsSorted (List.mem_filter.mp hitem).1
    exact convRegion_pos doc.pages entity item (hnn p hp item.1 hwp)
  · intro r hr
    unfold signaturesPrimary at hr
    obtain ⟨st, hst, hr⟩ := List.mem_flatMap.mp hr
    obtain ⟨span, hspan, hps⟩ := List.mem_filterMap.mp hr
    obtain ⟨mw0, rest, hm, rfl⟩ := processSpan_some_shape hps
    have hmw0 : mw0 ∈ matchingWordsOf doc.pages span := by rw [hm]; simp
    obtain ⟨p0, hp0, hw0⟩ := matchingWordsOf_word_mem hmw0
    have hlen0 : mw0.word.polygon.length = 8 := hlen p0 hp0 mw0.word hw0
    apply sigRegion_pos
    · exact sigXs_ne_nil (by intro hnil; rw [hnil] at hlen0; simp at hlen0)
    · exact sigYs_ne_nil (by omega)
    · intro q hq
      obtain ⟨mw, hmw, hqp⟩ := mem_sigXs hq
      have : mw ∈ matchingWordsOf doc.pages span := by rw [hm]; exact hmw
      obtain ⟨p, hp, hwp⟩ := matchingWordsOf_word_mem this
      exact hnn p hp mw.word hwp q hqp
    · intro q hq
      obtain ⟨mw, hmw, hqp⟩ := mem_sigYs hq
      have : mw ∈ matchingWordsOf doc.pages span := by rw [hm]; exact hmw
      obtain ⟨p, hp, hwp⟩ := matchingWordsOf_word_mem this
      exact hnn p hp mw.word hwp q hqp

/-- Witness for claim C10 at a concrete document: the regions emitted for the
entity and the handwritten span of `wDoc10` have nonnegative origin and
positive extent. -/
theorem claim_C10_witness :
    (0 ≤ ((convertEntitiesToRedactionCoordinates [wEnt10] wDoc10.pages).headD degenR).x
      ∧ 0 ≤ ((convertEntitiesToRedactionCoordinates [wEnt10] wDoc10.pages).headD degenR).y
      ∧ 0 < ((convertEntitiesToRedactionCoordinates [wEnt10] wDoc10.pages).headD degenR).width
      ∧ 0 < ((convertEntitiesToRedactionCoordinates [wEnt10] wDoc10.pages).headD degenR).height)
    ∧ (0 ≤ ((signaturesPrimary wDoc10).headD degenR).x
      ∧ 0 ≤ ((signaturesPrimary wDoc10).headD degenR).y
      ∧ 0 < ((signaturesPrimary wDoc10).headD degenR).width
      ∧ 0 < ((signaturesPrimary wDoc10).headD degenR).height) :=
  ⟨(claim_C10 [wEnt10] wDoc10 (by decide) (by decide)).1 _ (by decide),
   (claim_C10 [wEnt10] wDoc10 (by decide) (by decide)).2 _ (by decide)⟩

end Redact
